import Mathlib

/-!
Verification of the PTY bridging / transport core of the Obsidian-Terminal
plugin, as a shallow embedding in Lean 4.

Each definition below is translated from a concrete function of the source
tree; the source file and place is named in the doc comment of every
definition (part_NNN refers to the repository files of unknown name).
Stateful TypeScript code becomes explicit state passing; externally visible
effects (messages written to a stream, events emitted to a view, log lines)
become explicit action traces so that ordering properties can be stated.
-/

set_option linter.unusedVariables false
set_option linter.unnecessarySimpa false

/-! ## Generic association-list helpers (model of JS `Map`) -/

/-- Lookup in an association list, mirroring `Map.get`. -/
def alGet {K V : Type} [DecidableEq K] : List (K × V) → K → Option V
  | [], _ => none
  | (k, v) :: rest, key => if k = key then some v else alGet rest key

/-- Remove a key, mirroring `Map.delete`. -/
def alDel {K V : Type} [DecidableEq K] : List (K × V) → K → List (K × V)
  | [], _ => []
  | (k, v) :: rest, key => if k = key then alDel rest key else (k, v) :: alDel rest key

/-- Does `pat` occur at the start of `cs`? -/
def leadsWith : List Char → List Char → Bool
  | [], _ => true
  | _ :: _, [] => false
  | p :: ps, c :: cs => p = c && leadsWith ps cs

/-- Does `pat` occur anywhere in `cs`? -/
def hasSubstrL : List Char → List Char → Bool
  | [], pat => leadsWith pat []
  | c :: cs, pat => leadsWith pat (c :: cs) || hasSubstrL cs pat

/-- Model of the JS `String.prototype.includes` test used by the spawn-retry
heuristic: does the pattern occur as a contiguous substring? -/
def strIncludes (s pat : String) : Bool :=
  hasSubstrL s.data pat.data

namespace Bridge

/-! ## Bridge / Loader (part_006, first `ElectronBridge` class, lines 2437-3410) -/

/-- The `PtyLoadMode` union type of part_006 (`"remote" | "sidecar" | null`);
`null` is `Option.none` at the use sites. -/
inductive PtyLoadMode
  | remote
  | sidecar
deriving DecidableEq, Repr

/-- The strategy-resolution fields of the bridge (`_ptyLoadMode`,
`_directNodePty`) from part_006 lines 2442-2444. -/
structure InitState where
  ptyLoadMode : Option PtyLoadMode
  directNodePtyLoaded : Bool
deriving DecidableEq, Repr

/-- The exact message of the `throw` at part_006 lines 3231-3235. -/
def sidecarDisabledMsg : String :=
  "@electron/remote failed to load node-pty. Sidecar mode is disabled for testing. Check console logs for details."

/-- Embedding of `ElectronBridge.initializePtyLoading` (part_006 lines
3208-3236).  `strategy1Loaded` models the result of
`tryLoadViaElectronRemote()` (`null` becomes `false`).  The strategy-2
sidecar fallback (`ensureHostProcess`; `_ptyLoadMode = "sidecar"`) is
commented out in the source ("DISABLED FOR TESTING"); the function instead
throws after strategy 1 fails, which the `.error` branch reproduces. -/
def initializePtyLoading (st : InitState) (strategy1Loaded : Bool) :
    Except String InitState :=
  if st.ptyLoadMode.isSome then
    .ok st
  else if strategy1Loaded then
    .ok { ptyLoadMode := some .remote, directNodePtyLoaded := true }
  else
    .error sidecarDisabledMsg

/-- The sidecar startup bound hard-coded in `ensureHostProcess`
(part_006 line 2907: `setTimeout(..., 10000)`). -/
def hostStartupTimeoutMs : Nat := 10000

/-- Outcome of the `readyPromise` race inside `ensureHostProcess`
(part_006 lines 2893-2908 and the `ready` branch of `handleEvent`,
lines 3081-3090): the promise resolves iff the host's `ready` event is
processed strictly before the 10000 ms rejection timer fires; with no
`ready` event the timer rejects.  `readyEventAtMs` is the arrival time of
the `ready` event, `none` when it never arrives. -/
def hostStartupSucceeds (readyEventAtMs : Option Nat) : Bool :=
  match readyEventAtMs with
  | some t => decide (t < hostStartupTimeoutMs)
  | none => false

end Bridge

namespace Proto

/-! ## Wire format: line-delimited JSON values

A model of the JSON values exchanged on the transport, together with an
executable parser standing in for the runtime's `JSON.parse`. Both
endpoints (part_006 `setupHostMessageHandling` and part_003
`PtyHost.handleLine`) feed each received line to `JSON.parse` inside a
`try`/`catch`; parse success/failure is what the framing claims are about.
-/

/-- Parsed JSON values. Integer literals keep their value (the protocol's
`pid`, `cols`, `rows`, `exitCode` are integers); a numeric literal with a
fraction or exponent parses but carries no integer value. -/
inductive JVal
  | jnull
  | jbool (b : Bool)
  | jnum (intVal : Option Int)
  | jstr (s : String)
  | jarr (elems : List JVal)
  | jobj (fields : List (String × JVal))
deriving Repr

/-- JSON insignificant whitespace. -/
def isWs (c : Char) : Bool :=
  c = ' ' || c = '\t' || c = '\n' || c = '\r'

/-- Drop leading JSON whitespace. -/
def skipWs : List Char → List Char
  | [] => []
  | c :: cs => if isWs c then skipWs cs else c :: cs

/-- Model of `String.prototype.trim` on a received line: strip leading and
trailing whitespace (the lines at issue only ever carry ASCII whitespace,
which this covers). -/
def jsTrim (s : String) : String :=
  String.mk (((s.data.dropWhile isWs).reverse.dropWhile isWs).reverse)

/-- Model of `s.startsWith("{")`: does the first character exist and equal
the opening brace? -/
def startsWithBrace (s : String) : Bool :=
  match s.data with
  | c :: _ => c = '\x7b'
  | [] => false

/-- Hex digit value, for `\uXXXX` escapes. -/
def hexVal (c : Char) : Option Nat :=
  if '0' ≤ c ∧ c ≤ '9' then some (c.toNat - '0'.toNat)
  else if 'a' ≤ c ∧ c ≤ 'f' then some (c.toNat - 'a'.toNat + 10)
  else if 'A' ≤ c ∧ c ≤ 'F' then some (c.toNat - 'A'.toNat + 10)
  else none

/-- Body of a JSON string literal (after the opening quote): returns the
decoded characters and the input after the closing quote. -/
def parseStrBody : Nat → List Char → Option (List Char × List Char)
  | 0, _ => none
  | fuel + 1, cs =>
    match cs with
    | [] => none
    | '"' :: rest => some ([], rest)
    | '\\' :: e :: rest =>
      let push (c : Char) (r : List Char) : Option (List Char × List Char) :=
        (parseStrBody fuel r).map (fun p => (c :: p.1, p.2))
      match e with
      | '"' => push '"' rest
      | '\\' => push '\\' rest
      | '/' => push '/' rest
      | 'n' => push '\n' rest
      | 't' => push '\t' rest
      | 'r' => push '\r' rest
      | 'b' => push (Char.ofNat 8) rest
      | 'f' => push (Char.ofNat 12) rest
      | 'u' =>
        match rest with
        | a :: b :: c :: d :: rest2 =>
          match hexVal a, hexVal b, hexVal c, hexVal d with
          | some x, some y, some z, some w =>
            push (Char.ofNat (((x * 16 + y) * 16 + z) * 16 + w)) rest2
          | _, _, _, _ => none
        | _ => none
      | _ => none
    | c :: rest => if c.toNat < 32 then none else
        (parseStrBody fuel rest).map (fun p => (c :: p.1, p.2))

/-- Take a maximal run of decimal digits. -/
def takeDigits : List Char → List Char × List Char
  | [] => ([], [])
  | c :: cs =>
    if '0' ≤ c ∧ c ≤ '9' then
      let (ds, rest) := takeDigits cs
      (c :: ds, rest)
    else ([], c :: cs)

/-- Decimal digits to a natural number. -/
def digitsToNat : List Char → Nat → Nat
  | [], acc => acc
  | c :: cs, acc => digitsToNat cs (acc * 10 + (c.toNat - '0'.toNat))

/-- Optional exponent part of a JSON number: returns whether an exponent was
present and the remaining input; `none` on a malformed exponent. -/
def parseExpPart : List Char → Option (Bool × List Char)
  | 'e' :: r =>
    let r2 := match r with | '+' :: t => t | '-' :: t => t | _ => r
    let (ds, r3) := takeDigits r2
    if ds = [] then none else some (true, r3)
  | 'E' :: r =>
    let r2 := match r with | '+' :: t => t | '-' :: t => t | _ => r
    let (ds, r3) := takeDigits r2
    if ds = [] then none else some (true, r3)
  | cs => some (false, cs)

/-- A JSON numeric literal starting at the head of the input. Integer
literals carry their value; fractional/exponent literals carry `none`.
Per the JSON grammar the integer part is `0` or starts with a non-zero
digit, so a leading-zero numeral such as `0123` fails (as it does under
`JSON.parse`). -/
def parseNum (cs : List Char) : Option (JVal × List Char) :=
  let (neg, cs1) := match cs with | '-' :: r => (true, r) | _ => (false, cs)
  let (ds, r1) := takeDigits cs1
  match ds with
  | [] => none
  | '0' :: _ :: _ => none
  | _ =>
    let intPart : Int := if neg then -(digitsToNat ds 0 : Int) else (digitsToNat ds 0 : Int)
    match r1 with
    | '.' :: r2 =>
      let (fs, r3) := takeDigits r2
      if fs = [] then none
      else
        match parseExpPart r3 with
        | some (_, r4) => some (.jnum none, r4)
        | none => none
    | _ =>
      match parseExpPart r1 with
      | some (true, r4) => some (.jnum none, r4)
      | some (false, r4) => some (.jnum (some intPart), r4)
      | none => none

mutual

/-- One JSON value starting at the head of the (whitespace-skipped) input. -/
def parseVal : Nat → List Char → Option (JVal × List Char)
  | 0, _ => none
  | fuel + 1, cs0 =>
    match skipWs cs0 with
    | [] => none
    | 'n' :: 'u' :: 'l' :: 'l' :: rest => some (.jnull, rest)
    | 't' :: 'r' :: 'u' :: 'e' :: rest => some (.jbool true, rest)
    | 'f' :: 'a' :: 'l' :: 's' :: 'e' :: rest => some (.jbool false, rest)
    | '"' :: rest => (parseStrBody fuel rest).map (fun p => (.jstr (String.mk p.1), p.2))
    | '\x7b' :: rest => (parseFields fuel true rest).map (fun p => (.jobj p.1, p.2))
    | '[' :: rest => (parseElems fuel true rest).map (fun p => (.jarr p.1, p.2))
    | cs => parseNum cs

/-- Fields of a JSON object after `{` or after a separating comma;
`allowEnd` is true only for the first field (so `{}` parses but a
trailing comma does not). -/
def parseFields : Nat → Bool → List Char → Option (List (String × JVal) × List Char)
  | 0, _, _ => none
  | fuel + 1, allowEnd, cs0 =>
    match skipWs cs0 with
    | '\x7d' :: rest => if allowEnd then some ([], rest) else none
    | '"' :: r =>
      match parseStrBody fuel r with
      | some (keyChars, r1) =>
        match skipWs r1 with
        | ':' :: r2 =>
          match parseVal fuel r2 with
          | some (v, r3) =>
            match skipWs r3 with
            | ',' :: r4 =>
              (parseFields fuel false r4).map
                (fun p => ((String.mk keyChars, v) :: p.1, p.2))
            | '\x7d' :: r4 => some ([(String.mk keyChars, v)], r4)
            | _ => none
          | none => none
        | _ => none
      | none => none
    | _ => none

/-- Elements of a JSON array after `[` or after a separating comma. -/
def parseElems : Nat → Bool → List Char → Option (List JVal × List Char)
  | 0, _, _ => none
  | fuel + 1, allowEnd, cs0 =>
    match skipWs cs0 with
    | ']' :: rest => if allowEnd then some ([], rest) else none
    | cs =>
      match parseVal fuel cs with
      | some (v, r1) =>
        match skipWs r1 with
        | ',' :: r2 => (parseElems fuel false r2).map (fun p => (v :: p.1, p.2))
        | ']' :: r2 => some ([v], r2)
        | _ => none
      | none => none

end

/-- Model of `JSON.parse` applied to one received line: the whole input,
up to surrounding whitespace, must be a single JSON value; `none` models a
thrown `SyntaxError`. -/
def jsonParse (s : String) : Option JVal :=
  match parseVal (s.length + 2) s.data with
  | some (v, rest) => if skipWs rest = [] then some v else none
  | none => none

/-- JS property access `msg.k` on a parsed JSON value: only objects carry
properties; `JSON.parse` keeps the last occurrence of a duplicated key. -/
def getField : JVal → String → Option JVal
  | .jobj fs, k => alGet fs.reverse k
  | _, _ => none

end Proto

namespace PtyHost

/-! ## PTY Host sidecar process (part_003, `pty-host` module) -/

open Proto

/-- The host's `PtySessionManager` state: the pids of the live PTYs in its
session table (part_003 lines 66-91). -/
structure HState where
  sessions : List Int
deriving DecidableEq, Repr

/-- Externally visible actions of the host process: protocol messages
written to stdout (`IpcHandler.send`) and operations applied to real PTY
handles.  A response carries the correlation id value taken from the
request (`undefined` when the request had none), whether a `result` was
attached, and the `error` string if any. -/
inductive HOut
  | sendResponse (id : Option JVal) (hasResult : Bool) (error : Option String)
  | sendEvent (name : String)
  | ptyWrite (pid : Int) (data : Option JVal)
  | ptyResize (pid : Int) (cols rows : Option JVal)
  | ptyKill (pid : Int) (signal : Option JVal)
deriving Repr

/-- JS member access `base.k` where `base` may be `undefined` (modelled as
`none`) or `null`: both throw a `TypeError`; any other value yields the
property (`undefined` for a missing or non-object property). -/
def jsField : Option JVal → String → Except String (Option JVal)
  | none, _ => .error "TypeError"
  | some .jnull, _ => .error "TypeError"
  | some v, k => .ok (getField v k)

/-- The integer key a parsed JSON value provides for a `Map<number, _>`
lookup such as `this.sessions.get(pid)`: only an integer numeric value can
match a registered pid key. -/
def asPidKey : Option JVal → Option Int
  | some (.jnum (some n)) => some n
  | _ => none

/-- Embedding of `PtyHost.handleWrite` (part_003 lines 269-277): look the
PTY up by pid; if present forward the payload verbatim; if absent, do
nothing — no response, no event.  A thrown `TypeError` (from `params.pid`
when `params` is null/undefined) propagates to `handleRequest`'s catch. -/
def handleWrite (st : HState) (params : Option JVal) :
    Except String (HState × List HOut) :=
  match jsField params "pid", jsField params "data" with
  | .error e, _ => .error e
  | _, .error e => .error e
  | .ok pidV, .ok dataV =>
    match asPidKey pidV with
    | some pid =>
      if pid ∈ st.sessions then
        .ok (st, [.ptyWrite pid dataV])
      else
        .ok (st, [])
    | none => .ok (st, [])

/-- Embedding of `PtyHost.handleResize` (part_003 lines 279-288): absent
pid is a silent no-op; no response in either case. -/
def handleResize (st : HState) (params : Option JVal) :
    Except String (HState × List HOut) :=
  match jsField params "pid", jsField params "cols", jsField params "rows" with
  | .error e, _, _ => .error e
  | _, .error e, _ => .error e
  | _, _, .error e => .error e
  | .ok pidV, .ok colsV, .ok rowsV =>
    match asPidKey pidV with
    | some pid =>
      if pid ∈ st.sessions then
        .ok (st, [.ptyResize pid colsV rowsV])
      else
        .ok (st, [])
    | none => .ok (st, [])

/-- Embedding of `PtyHost.handleKill` (part_003 lines 290-301): kill and
remove when present; respond with a success acknowledgment regardless. -/
def handleKill (st : HState) (id : Option JVal) (params : Option JVal) :
    Except String (HState × List HOut) :=
  match jsField params "pid", jsField params "signal" with
  | .error e, _ => .error e
  | _, .error e => .error e
  | .ok pidV, .ok sigV =>
    match asPidKey pidV with
    | some pid =>
      if pid ∈ st.sessions then
        .ok ({ st with sessions := st.sessions.erase pid },
             [.ptyKill pid sigV, .sendResponse id true none])
      else
        .ok (st, [.sendResponse id true none])
    | none => .ok (st, [.sendResponse id true none])

/-- Embedding of `PtyHost.handleCreate` (part_003 lines 227-267).
`spawn` abstracts `pty.spawn(file, args, ptyOptions)` (the option record is
built verbatim from `params`): it returns the new pid or the thrown
error's message.  On success the pid is registered and a `{pid}` result is
sent; data/exit forwarding is the event machinery modelled on the bridge
side.  A thrown spawn error propagates to `handleRequest`'s catch. -/
def handleCreate (spawn : Except String Int) (st : HState) (id : Option JVal)
    (params : Option JVal) : Except String (HState × List HOut) :=
  match jsField params "file", jsField params "args", jsField params "options" with
  | .error e, _, _ => .error e
  | _, .error e, _ => .error e
  | _, _, .error e => .error e
  | .ok _, .ok _, .ok _ =>
    match spawn with
    | .ok pid => .ok ({ st with sessions := pid :: st.sessions },
                      [.sendResponse id true none])
    | .error e => .error e

/-- Embedding of `PtyHost.handleRequest` (part_003 lines 194-225): dispatch
on `method`; unknown methods get an error response; anything thrown by a
handler is caught and turned into an error response for `id`. -/
def handleRequest (spawn : Except String Int) (st : HState) (msg : JVal) :
    HState × List HOut :=
  let id := getField msg "id"
  let params := getField msg "params"
  let dispatched : Except String (HState × List HOut) :=
    match getField msg "method" with
    | some (.jstr m) =>
      if m = "create" then handleCreate spawn st id params
      else if m = "write" then handleWrite st params
      else if m = "resize" then handleResize st params
      else if m = "kill" then handleKill st id params
      else .ok (st, [.sendResponse id false (some "Unknown method")])
    | _ => .ok (st, [.sendResponse id false (some "Unknown method")])
  match dispatched with
  | .ok r => r
  | .error e => (st, [.sendResponse id false (some e)])

/-- The fixed prefix of the error sent for an unparseable line
(part_003 line 186-190); the runtime's `SyntaxError` message is appended
after it in the source. -/
def protocolErrorMsg : String := "Protocol error"

/-- Embedding of `PtyHost.handleLine` (part_003 lines 176-192): trim; skip
empty lines; then, inside one `try`/`catch`, `JSON.parse` the line and
read `msg.type`.  A parse failure — and equally the `TypeError` the
`.type` access throws when the line parsed to `null` — is caught and
answered with an error RESPONSE message carrying the empty-string id.  A
value whose `type` property reads as exactly `"request"` is dispatched;
any other successfully-read `type` (absent, non-string, or a different
string) is ignored. -/
def handleLine (spawn : Except String Int) (st : HState) (line : String) :
    HState × List HOut :=
  let trimmed := jsTrim line
  if trimmed = "" then (st, [])
  else
    match jsonParse trimmed with
    | none => (st, [.sendResponse (some (.jstr "")) false (some protocolErrorMsg)])
    | some msg =>
      match jsField (some msg) "type" with
      | .error _ =>
        (st, [.sendResponse (some (.jstr "")) false (some protocolErrorMsg)])
      | .ok (some (.jstr t)) =>
        if t = "request" then handleRequest spawn st msg else (st, [])
      | .ok _ => (st, [])

end PtyHost

namespace Bridge

/-! ## Controller-side line handling (part_006 `setupHostMessageHandling`,
lines 2996-3046) -/

/-- Externally visible effects of the controller's `rl.on("line")` handler:
console logging and the call into `handleHostMessage`.  The handler has no
other effect — in particular it never writes to the host and never
throws (the `JSON.parse` is inside `try`/`catch`). -/
inductive CtrlLineOut
  | debugLogged
  | warnedMalformed
  | dispatched (msg : Proto.JVal)
deriving Repr

/-- Embedding of the `rl.on("line", ...)` handler of
`setupHostMessageHandling` (part_006 lines 3010-3034): trim; drop empty
lines; debug-log the line; drop (with a debug log) any line not starting
with `{`; `JSON.parse` the rest, turning a parse failure into a warning
log only; dispatch a parsed message into `handleHostMessage` only when its
`type` field is a string. -/
def ctrlHandleLine (line : String) : List CtrlLineOut :=
  let trimmed := Proto.jsTrim line
  if trimmed = "" then []
  else if !(Proto.startsWithBrace trimmed) then [.debugLogged, .debugLogged]
  else
    match Proto.jsonParse trimmed with
    | none => [.debugLogged, .warnedMalformed]
    | some msg =>
      match Proto.getField msg "type" with
      | some (.jstr _) => [.debugLogged, .debugLogged, .dispatched msg]
      | _ => [.debugLogged, .debugLogged]

end Bridge

namespace RemotePtyM

/-! ## Remote PTY handle (src/core/remote-pty.ts, `RemotePty`) -/

/-- The data fields of a `RemotePty` object (src/core/remote-pty.ts lines
27-47): pid (temporary negative value until rebound), cached dimensions,
shell process name, and the `killed` flag. -/
structure RPty where
  pid : Int
  cols : Nat
  rows : Nat
  procName : String
  killed : Bool
deriving DecidableEq, Repr

/-- A request handed to the bound `sendToHost` function. -/
inductive HostMsg
  | write (pid : Int) (data : String)
  | resize (pid : Int) (cols rows : Nat)
  | kill (pid : Int) (signal : Option String)
deriving DecidableEq, Repr

/-- A local event replayed to this handle's subscribers. -/
inductive LocalEvent
  | data (s : String)
  | exit (exitCode : Int) (signal : Option Int)
  | error
deriving DecidableEq, Repr

/-- Embedding of `RemotePty.write` (lines 96-103): a killed handle
short-circuits; otherwise one fire-and-forget `write` request is sent and
any rejection of it is swallowed by `.catch`. -/
def RPty.write (p : RPty) (data : String) : RPty × List HostMsg :=
  if p.killed then (p, []) else (p, [.write p.pid data])

/-- Embedding of `RemotePty.resize` (lines 77-89): a killed handle
short-circuits; otherwise the cached dimensions are updated immediately
and one fire-and-forget `resize` request is sent. -/
def RPty.resize (p : RPty) (cols rows : Nat) : RPty × List HostMsg :=
  if p.killed then (p, [])
  else ({ p with cols := cols, rows := rows }, [.resize p.pid cols rows])

/-- Embedding of `RemotePty.kill` (lines 110-117): a killed handle
short-circuits; otherwise the handle marks itself killed immediately —
before the host round trip — and sends one `kill` request. -/
def RPty.kill (p : RPty) (signal : Option String) : RPty × List HostMsg :=
  if p.killed then (p, [])
  else ({ p with killed := true }, [.kill p.pid signal])

/-- Embedding of `RemotePty.emitData` (lines 143-145). -/
def RPty.emitData (p : RPty) (s : String) : RPty × List LocalEvent :=
  (p, [.data s])

/-- Embedding of `RemotePty.emitExit` (lines 150-157): sets `killed` and
re-emits the exit locally. -/
def RPty.emitExit (p : RPty) (exitCode : Int) (signal : Option Int) :
    RPty × List LocalEvent :=
  ({ p with killed := true }, [.exit exitCode signal])

/-- Embedding of `RemotePty.emitError` (lines 162-164). -/
def RPty.emitError (p : RPty) : RPty × List LocalEvent :=
  (p, [.error])

/-- Embedding of `RemotePty.updatePid` (lines 169-171). -/
def RPty.updatePid (p : RPty) (realPid : Int) : RPty :=
  { p with pid := realPid }

end RemotePtyM

namespace Bridge

/-! ## Sidecar RPC state machine (part_006, first `ElectronBridge` class):
`sendToHost` (3158-3197), `handleResponse` (3062-3074), `handleEvent`
(3079-3132), `handleHostExit` (3137-3153) -/

open RemotePtyM

/-- Update the value stored at a key. -/
def alModify {K V : Type} [DecidableEq K] (l : List (K × V)) (k : K) (f : V → V) :
    List (K × V) :=
  l.map (fun p => if p.1 = k then (p.1, f p.2) else p)

/-- Mark the `RemotePty` objects at the given heap refs killed, as the
`emitExit` loop of `handleHostExit` does. -/
def killRefs (remotes : List (Nat × RPty)) (refs : List Nat) : List (Nat × RPty) :=
  remotes.map (fun p => if p.1 ∈ refs then (p.1, { p.2 with killed := true }) else p)

/-- The RPC timeout of part_006 line 2432 (`RPC_TIMEOUT = 30000`). -/
def rpcTimeoutMs : Nat := 30000

/-- The transport bookkeeping of the bridge in sidecar mode:
`messageId` counter, `pendingRequests` (ids are the decimal strings of the
counter; the model keys them by the counter value itself, an injective
image), `activePtys` and `tempPidMap` (pid to handle-object ref), and a
heap of the `RemotePty` objects those refs denote. -/
structure BState where
  messageId : Nat
  pending : List (Nat × String)
  activePtys : List (Int × Nat)
  tempPidMap : List (Int × Nat)
  remotes : List (Nat × RPty)
deriving DecidableEq, Repr

/-- The bridge's empty initial transport state. -/
def initB : BState := ⟨0, [], [], [], []⟩

/-- Externally visible transport effects: a line written to the host's
stdin, a settlement of a pending request's promise, or an event replayed
on a `RemotePty` object. -/
inductive BOut
  | stdinLine (method : String)
  | resolved (id : Nat)
  | rejectedError (id : Nat)
  | rejectedTimeout (id : Nat)
  | rejectedHostExit (id : Nat)
  | emitted (ref : Nat) (ev : LocalEvent)
deriving DecidableEq, Repr

/-- The events driving the transport state, each corresponding to one
event-loop turn of the source: a `sendToHost` call (split into the
correlated and the `write` fast path, part_006 lines 3158-3196), the
receipt of a `response` line (`handleResponse`), the firing of a pending
request's 30 s timer, the receipt of a `data`/`exit`/`error` event line
(`handleEvent`), and the host child's `exit` (`handleHostExit`). -/
inductive BEv
  | sendRequest (method : String)
  | sendWrite
  | response (id : Nat) (isError : Bool)
  | timeoutFire (id : Nat)
  | evData (pid : Int) (data : String)
  | evExit (pid : Int) (exitCode : Int) (signal : Option Int)
  | evError (pid : Int)
  | hostExit
deriving DecidableEq, Repr

/-- One transition of the bridge transport.

On `sendRequest`/`sendWrite`, `const id = (this.messageId++).toString()`
runs first; only the correlated path registers a pending entry (with its
timer) before writing the line; the `write` path writes and returns null.

On `response id`, `handleResponse` ignores an id with no pending entry,
and otherwise clears the timer, deletes the entry, and settles the promise
(reject when the message carries `error`, resolve otherwise).

`timeoutFire id` models the expiry of the `setTimeout` registered for
`id`: the callback deletes the entry and rejects.  A fired timer must
still be live; since every path that removes a pending entry also runs
`clearTimeout`, a live timer exists exactly when the entry is present, so
an absent id makes the event a no-op.

`evData`/`evExit`/`evError pid` follow `handleEvent`: a pid not in
`activePtys` is dropped; `evExit` also deletes the pid after the emit.

`hostExit` is `handleHostExit`: emit `exit(-1, undefined)` on every
tracked handle, clear `activePtys` and `tempPidMap`, then reject every
pending request and clear the table. -/
def step (st : BState) : BEv → BState × List BOut
  | .sendRequest method =>
    let id := st.messageId
    ({ st with messageId := id + 1, pending := st.pending ++ [(id, method)] },
     [.stdinLine method])
  | .sendWrite =>
    ({ st with messageId := st.messageId + 1 }, [.stdinLine "write"])
  | .response id isErr =>
    match alGet st.pending id with
    | none => (st, [])
    | some _ =>
      ({ st with pending := alDel st.pending id },
       [if isErr then .rejectedError id else .resolved id])
  | .timeoutFire id =>
    match alGet st.pending id with
    | none => (st, [])
    | some _ =>
      ({ st with pending := alDel st.pending id }, [.rejectedTimeout id])
  | .evData pid data =>
    match alGet st.activePtys pid with
    | none => (st, [])
    | some ref =>
      ({ st with remotes := alModify st.remotes ref (fun p => (p.emitData data).1) },
       [.emitted ref (.data data)])
  | .evExit pid exitCode signal =>
    match alGet st.activePtys pid with
    | none => (st, [])
    | some ref =>
      ({ st with
           activePtys := alDel st.activePtys pid,
           remotes := alModify st.remotes ref (fun p => (p.emitExit exitCode signal).1) },
       [.emitted ref (.exit exitCode signal)])
  | .evError pid =>
    match alGet st.activePtys pid with
    | none => (st, [])
    | some ref => (st, [.emitted ref .error])
  | .hostExit =>
    ({ st with
         pending := [],
         activePtys := [],
         tempPidMap := [],
         remotes := killRefs st.remotes (st.activePtys.map (·.2)) },
     st.activePtys.map (fun pr => .emitted pr.2 (.exit (-1) none)) ++
       st.pending.map (fun pr => .rejectedHostExit pr.1))

/-- Run the transport over a sequence of event-loop turns, collecting the
visible effects in order. -/
def runB (st : BState) : List BEv → BState × List BOut
  | [] => (st, [])
  | e :: es =>
    let p := step st e
    let q := runB p.1 es
    (q.1, p.2 ++ q.2)

/-- The id settled by an output, if it settles one. -/
def resolutionId : BOut → Option Nat
  | .resolved id => some id
  | .rejectedError id => some id
  | .rejectedTimeout id => some id
  | .rejectedHostExit id => some id
  | _ => none

/-- All promise settlements in an output trace, in order. -/
def resolutionIds (outs : List BOut) : List Nat :=
  outs.filterMap resolutionId

/-- Invariant tying the pending table to the settlement history: every id
settled so far has left the table, no id is ever settled twice, and the
`messageId` counter is strictly above every id in the table or history
(which is what makes freshly generated ids unique). -/
def InvB (st : BState) (settled : List Nat) : Prop :=
  settled.Nodup ∧
  (∀ id ∈ settled, alGet st.pending id = none) ∧
  (∀ id ∈ settled, id < st.messageId) ∧
  (∀ pr ∈ st.pending, pr.1 < st.messageId) ∧
  (st.pending.map Prod.fst).Nodup

end Bridge

namespace Mgr

/-! ## Session manager and PTY manager

The repository carries two `TerminalManager` implementations: the one in
part_007 (lines 300-700) and the one in src/core/terminal-manager.ts.
They differ exactly in the places the claims are about (deregistration
order in `destroyTerminal`, and the staleness guard of the exit/error
handlers), so both are embedded.  Both delegate PTY teardown to the single
`PTYManager.destroyPTY` of src/core/pty-manager.ts.

Session objects are mutable JS objects that outlive their registry entry
(the event-handler closures keep referencing them), so the model uses an
explicit heap: `heap : Nat → SessionObj` maps an object reference to its
current field values, and the registry maps a session id to a reference.
`listeners` holds the handles whose event listeners are still attached
(`removeAllListeners` detaches every listener of a handle at once);
`activePTYs` is the `PTYManager` tracking set.
-/

/-- The fields of a `TerminalSession` object (src/types): id, PTY handle
(modelled by the handle's object identity, a number), `isActive`, and the
optional UI-view back-reference. -/
structure SessionObj where
  sid : String
  handle : Nat
  isActive : Bool
  view : Option Nat
deriving DecidableEq, Repr

/-- Combined state of `TerminalManager` (registry) and `PTYManager`
(tracking set), plus the session-object heap and the per-handle listener
attachment flag. -/
structure MState where
  heap : Nat → SessionObj
  registry : List (String × Nat)
  activePTYs : List Nat
  listeners : List Nat

/-- Update one session object on the heap. -/
def heapSet (st : MState) (r : Nat) (f : SessionObj → SessionObj) : MState :=
  { st with heap := fun x => if x = r then f (st.heap x) else st.heap x }

/-- Remove a handle from a tracking set (JS `Set.delete` /
`removeAllListeners` remove the membership entirely). -/
def setRemove (l : List Nat) (h : Nat) : List Nat :=
  l.filter (fun x => x ≠ h)

/-- Visible actions of the manager layer, in execution order: `PTYManager`
tracking/listener mutations, bytes written to a PTY, swallowed write
failures, registry removal, view notifications, and the assignment a
session-event handler performs on its session object.  `killedPty` is the
`pty.kill()` call — included in the vocabulary so that its absence from
`destroyPTY` traces is expressible. -/
inductive MOut
  | untracked (h : Nat)
  | listenersRemoved (h : Nat)
  | wroteToPty (h : Nat) (data : String)
  | warnedWriteFailed (h : Nat)
  | killedPty (h : Nat)
  | deregistered (id : String)
  | warnedNotFound (id : String)
  | sessionMarkedInactive (r : Nat)
  | sessionMarkedActive (r : Nat)
  | viewExitNotified (v : Nat) (exitCode : Int)
  | viewErrorNotified (v : Nat)
deriving DecidableEq, Repr

/-- Embedding of `PTYManager.destroyPTY` (src/core/pty-manager.ts lines
155-187).  An untracked handle is a complete no-op.  A tracked handle is
first removed from tracking, then stripped of all its listeners, and only
then gracefully shut down by writing Ctrl-C (`"\x03"`) and `"exit\r"` to
the process; `pty.kill()` is never called.  `ptyAlive` tells whether the
writes succeed; when the process is already dead the thrown write error is
caught and only a warning is logged. -/
def destroyPTY (st : MState) (h : Nat) (ptyAlive : Bool) : MState × List MOut :=
  if h ∈ st.activePTYs then
    let st1 := { st with activePTYs := setRemove st.activePTYs h,
                         listeners := setRemove st.listeners h }
    if ptyAlive then
      (st1, [.untracked h, .listenersRemoved h,
             .wroteToPty h "\x03", .wroteToPty h "exit\r"])
    else
      (st1, [.untracked h, .listenersRemoved h, .warnedWriteFailed h])
  else (st, [])

/-- Embedding of `TerminalManager.destroyTerminal` from part_007 (lines
350-386): warn-and-return when unknown; mark the session inactive; DELETE
the id from the registry before killing; clear the view reference; then
`destroyPTY` (its errors are caught and only warned about). -/
def destroyTerminal7 (st : MState) (id : String) (ptyAlive : Bool) :
    MState × List MOut :=
  match alGet st.registry id with
  | none => (st, [.warnedNotFound id])
  | some r =>
    let st1 := heapSet st r (fun s => { s with isActive := false })
    let st2 := { st1 with registry := alDel st1.registry id }
    let st3 := heapSet st2 r (fun s => { s with view := none })
    let p := destroyPTY st3 (st.heap r).handle ptyAlive
    (p.1, .sessionMarkedInactive r :: .deregistered id :: p.2)

/-- Embedding of `TerminalManager.destroyTerminal` from
src/core/terminal-manager.ts (lines 77-117): warn-and-return when unknown;
mark inactive; call `destroyPTY` FIRST; clear the view reference; and only
then delete the id from the registry. -/
def destroyTerminalSrc (st : MState) (id : String) (ptyAlive : Bool) :
    MState × List MOut :=
  match alGet st.registry id with
  | none => (st, [.warnedNotFound id])
  | some r =>
    let st1 := heapSet st r (fun s => { s with isActive := false })
    let p := destroyPTY st1 (st.heap r).handle ptyAlive
    let st3 := heapSet p.1 r (fun s => { s with view := none })
    let st4 := { st3 with registry := alDel st3.registry id }
    (st4, .sessionMarkedInactive r :: p.2 ++ [.deregistered id])

/-- Embedding of `TerminalManager.getTerminal` (both versions are
identical: `this.terminals.get(id)`), returning the session object. -/
def getTerminal (st : MState) (id : String) : Option SessionObj :=
  (alGet st.registry id).map st.heap

/-- Shared embedding of `createTerminal`'s registration effect (identical
in both manager versions, part_007 lines 300-345 and
src/core/terminal-manager.ts lines 26-72, together with
`PTYManager.createPTY`'s tracking of the new handle): the caller supplies
the fresh session-object reference `r` and the fresh handle `h` the
runtime allocated.  Fails when the id is already registered. -/
def createTerminal (st : MState) (id : String) (r h : Nat) :
    Except String MState :=
  if (alGet st.registry id).isSome then
    .error "Terminal already exists"
  else
    .ok { heap := fun x => if x = r then ⟨id, h, true, none⟩ else st.heap x,
          registry := (id, r) :: st.registry,
          activePTYs := h :: st.activePTYs,
          listeners := h :: st.listeners }

/-- The exit handler wired by part_007's `setupPTYEventHandlers` (lines
514-553), fired when handle `h` emits `exit`; `r` and `id` are the session
object and id captured by the closure at creation time.  The handler only
runs while `h`'s listeners are attached; `PTYManager.createPTY`'s own exit
listener (pty-manager.ts lines 119-124) removes the handle from tracking
first; then the manager's handler re-checks that the session currently
registered under `id` still holds this very handle, and drops the event
otherwise; when the check passes it marks the session inactive and
notifies the session's view. -/
def fireExit7 (st : MState) (r : Nat) (id : String) (h : Nat) (exitCode : Int) :
    MState × List MOut :=
  if h ∈ st.listeners then
    let st0 := { st with activePTYs := setRemove st.activePTYs h }
    match alGet st0.registry id with
    | none => (st0, [])
    | some r' =>
      if (st0.heap r').handle = h then
        let st1 := heapSet st0 r (fun s => { s with isActive := false })
        match (st1.heap r).view with
        | some v => (st1, [.sessionMarkedInactive r, .viewExitNotified v exitCode])
        | none => (st1, [.sessionMarkedInactive r])
      else (st0, [])
  else (st, [])

/-- The error handler wired by part_007's `setupPTYEventHandlers` (lines
555-574): same staleness guard as the exit handler, then marks inactive
and notifies the view of the error. -/
def fireError7 (st : MState) (r : Nat) (id : String) (h : Nat) :
    MState × List MOut :=
  if h ∈ st.listeners then
    let st0 := { st with activePTYs := setRemove st.activePTYs h }
    match alGet st0.registry id with
    | none => (st0, [])
    | some r' =>
      if (st0.heap r').handle = h then
        let st1 := heapSet st0 r (fun s => { s with isActive := false })
        match (st1.heap r).view with
        | some v => (st1, [.sessionMarkedInactive r, .viewErrorNotified v])
        | none => (st1, [.sessionMarkedInactive r])
      else (st0, [])
  else (st, [])

/-- The exit handler wired by src/core/terminal-manager.ts's
`setupPTYEventHandlers` (lines 240-253): it performs NO staleness check —
whenever it runs it marks the captured session object inactive and, if
that object still has a view, notifies it. -/
def fireExitSrc (st : MState) (r : Nat) (h : Nat) (exitCode : Int) :
    MState × List MOut :=
  if h ∈ st.listeners then
    let st0 := { st with activePTYs := setRemove st.activePTYs h }
    let st1 := heapSet st0 r (fun s => { s with isActive := false })
    match (st1.heap r).view with
    | some v => (st1, [.sessionMarkedInactive r, .viewExitNotified v exitCode])
    | none => (st1, [.sessionMarkedInactive r])
  else (st, [])

/-- The error handler wired by src/core/terminal-manager.ts's
`setupPTYEventHandlers` (lines 255-266): no staleness check either. -/
def fireErrorSrc (st : MState) (r : Nat) (h : Nat) : MState × List MOut :=
  if h ∈ st.listeners then
    let st0 := { st with activePTYs := setRemove st.activePTYs h }
    let st1 := heapSet st0 r (fun s => { s with isActive := false })
    match (st1.heap r).view with
    | some v => (st1, [.sessionMarkedInactive r, .viewErrorNotified v])
    | none => (st1, [.sessionMarkedInactive r])
  else (st, [])

/-- Embedding of `TerminalManager.restartTerminal` from
src/core/terminal-manager.ts (lines 188-212): remember the view, destroy
the existing session, create a fresh session under the same id (with fresh
`r'`, `h'`), and restore the view reference onto the new session. -/
def restartTerminalSrc (st : MState) (id : String) (ptyAlive : Bool)
    (r' h' : Nat) : Except String (MState × List MOut) :=
  match alGet st.registry id with
  | none => .error "Terminal session not found"
  | some r =>
    let view := (st.heap r).view
    let p := destroyTerminalSrc st id ptyAlive
    match createTerminal p.1 id r' h' with
    | .error e => .error e
    | .ok st2 =>
      .ok (heapSet st2 r' (fun s => { s with view := view }), p.2)

/-- Left-to-right scan step for `beforeAllB`: the pair carries (all checks
passed so far, an `a`-action has been seen strictly earlier). -/
def beforeAllStep (a b : MOut → Bool) (acc : Bool × Bool) (x : MOut) : Bool × Bool :=
  (acc.1 && (!(b x) || acc.2), acc.2 || a x)

/-- In trace `tr`, every action satisfying `b` is strictly preceded by some
action satisfying `a` (true when no `b`-action occurs).  Used to state
ordering contracts such as deregister-before-terminate. -/
def beforeAllB (tr : List MOut) (a b : MOut → Bool) : Bool :=
  (tr.foldl (beforeAllStep a b) (true, false)).1

/-- Whether an action is one of `destroyPTY`'s termination actions (the
graceful-shutdown writes or the attempted write on a dead process). -/
def isTermination : MOut → Bool
  | .wroteToPty _ _ => true
  | .warnedWriteFailed _ => true
  | .killedPty _ => true
  | _ => false

end Mgr

namespace Shells

/-! ## Shell candidate selection and spawn retry
(part_007 `createTerminalWithAvailableShell` lines 580-662 and
`getShellsToTry` lines 667-685; src/core/pty-manager.ts
`getAlternativeShells` lines 302-316 and `findAvailableShell` lines
318-335) -/

/-- The `process.platform` values the code branches on. -/
inductive Plat
  | darwin
  | win32
  | linux
  | other
deriving DecidableEq, Repr

/-- Embedding of `PTYManager.getAlternativeShells`. -/
def getAlternativeShells : Plat → List String
  | .win32 => ["powershell.exe", "cmd.exe"]
  | .darwin => ["/bin/zsh", "/bin/bash", "/bin/sh"]
  | .linux => ["/bin/bash", "/bin/sh", "/bin/zsh"]
  | .other => ["/bin/sh"]

/-- Embedding of `PTYManager.findAvailableShell`: the first alternative
that passes `validateShell` (validation errors count as invalid), else the
default shell. -/
def findAvailableShell (alternatives : List String) (valid : String → Bool)
    (dflt : String) : String :=
  match alternatives.find? valid with
  | some s => s
  | none => dflt

/-- Embedding of `TerminalManager.getShellsToTry` (part_007 lines
667-685): the preferred shell first (when truthy), then each alternative
not already in the list. -/
def getShellsToTry (preferred : String) (alternatives : List String) :
    List String :=
  alternatives.foldl (fun acc s => if s ∈ acc then acc else acc ++ [s])
    (if preferred ≠ "" then [preferred] else [])

/-- The error-message signature sniffed for the transient macOS spawn
race (part_007 line 641: `errorMsg.includes("posix_spawnp")`). -/
def posixSpawnSig : String := "posix_spawnp"

/-- Visible actions of the spawn loop: a spawn attempt of a shell (with
its 1-based attempt number) and the 100 ms retry delay. -/
inductive TAct
  | attempt (shell : String) (n : Nat)
  | slept (ms : Nat)
deriving DecidableEq, Repr

/-- The inner retry loop of `createTerminalWithAvailableShell` for one
candidate shell (part_007 lines 607-655).  `spawn shell n` abstracts the
`createPTY` call on attempt `n` (the thrown error's message on failure).
`attempt` is the current 1-based attempt number and `fuel` the number of
attempts still allowed (`maxRetries - attempt + 1`).  A transient failure
(darwin and the message contains "posix_spawnp") sleeps 100 ms and retries
while attempts remain; any other failure breaks to the next candidate
immediately.  Returns the spawned handle on success, the trace, and the
last error this shell produced. -/
def attemptShell (plat : Plat) (spawn : String → Nat → Except String Nat)
    (shell : String) : Nat → Nat → Option Nat × List TAct × Option String
  | _, 0 => (none, [], none)
  | attempt, fuel + 1 =>
    match spawn shell attempt with
    | .ok h => (some h, [.attempt shell attempt], none)
    | .error e =>
      if plat = .darwin ∧ strIncludes e posixSpawnSig then
        if fuel = 0 then (none, [.attempt shell attempt], some e)
        else
          let p := attemptShell plat spawn shell (attempt + 1) fuel
          (p.1, .attempt shell attempt :: .slept 100 :: p.2.1,
           some (p.2.2.getD e))
      else (none, [.attempt shell attempt], some e)

/-- The aggregate failure message built after every candidate is exhausted
(part_007 lines 656-661): it interpolates the full candidate list and the
last error's message (`undefined` when there was none, as the JS template
literal renders it). -/
def aggregateMsg (shells : List String) (lastErr : Option String) : String :=
  "Failed to create terminal. Tried shells: " ++ String.intercalate ", " shells ++
    ". Last error: " ++ (match lastErr with | some m => m | none => "undefined")

/-- The outer candidate loop of `createTerminalWithAvailableShell`
(part_007 lines 601-655): `maxRetries` is 3 on darwin and 1 elsewhere;
the first candidate that spawns wins; when the list is exhausted the
aggregate error is thrown.  `allShells` is the full candidate list used in
the aggregate message. -/
def tryShellList (plat : Plat) (spawn : String → Nat → Except String Nat)
    (allShells : List String) :
    List String → Option String → Except String (String × Nat) × List TAct
  | [], lastErr => (.error (aggregateMsg allShells lastErr), [])
  | shell :: rest, lastErr =>
    let maxRetries := if plat = .darwin then 3 else 1
    let p := attemptShell plat spawn shell 1 maxRetries
    match p.1 with
    | some h => (.ok (shell, h), p.2.1)
    | none =>
      let q := tryShellList plat spawn allShells rest (p.2.2.orElse (fun _ => lastErr))
      (q.1, p.2.1 ++ q.2)

/-- Embedding of `TerminalManager.createTerminalWithAvailableShell`
(part_007 lines 580-662): duplicate-id guard, candidate-list construction
via `getShellsToTry`, then the retry/fallback loop.  On success the result
carries the winning shell and the spawned handle of the session that was
registered under `sessionId`. -/
def createTerminalWithAvailableShell (plat : Plat)
    (registeredIds : List String) (sessionId : String) (preferred : String)
    (alternatives : List String) (spawn : String → Nat → Except String Nat) :
    Except String (String × Nat) × List TAct :=
  if sessionId ∈ registeredIds then
    (.error ("Terminal with ID " ++ sessionId ++ " already exists"), [])
  else
    let shells := getShellsToTry preferred alternatives
    tryShellList plat spawn shells shells none

/-- Number of spawn attempts of one shell in a trace. -/
def countAttempts (tr : List TAct) (shell : String) : Nat :=
  (tr.filter (fun a => match a with
    | .attempt s _ => s = shell
    | _ => false)).length

/-- Whether the trace contains a retry delay. -/
def sleptIn (tr : List TAct) : Bool :=
  tr.any (fun a => match a with | .slept _ => true | _ => false)

end Shells

namespace Mgr

/-- Matcher for `untracked` actions. -/
def isUntrack : MOut → Bool
  | .untracked _ => true
  | _ => false

/-- Matcher for `listenersRemoved` actions. -/
def isListenerRemoval : MOut → Bool
  | .listenersRemoved _ => true
  | _ => false

/-- Matcher for `deregistered` actions. -/
def isDeregister : MOut → Bool
  | .deregistered _ => true
  | _ => false

/-- Matcher for `killedPty` actions. -/
def isKill : MOut → Bool
  | .killedPty _ => true
  | _ => false

/-- Matcher for the actions a session-event handler performs (the
`isActive` store and the view notifications). -/
def isHandlerAction : MOut → Bool
  | .sessionMarkedInactive _ => true
  | .sessionMarkedActive _ => true
  | .viewExitNotified _ _ => true
  | .viewErrorNotified _ => true
  | _ => false

/-- An empty manager state (no sessions, nothing tracked). -/
def emptyM : MState :=
  ⟨fun _ => ⟨"", 0, false, none⟩, [], [], []⟩

/-! Concrete run used to settle the staleness-guard claim against the
src/core manager: open session `"t1"` (object ref 1, handle 101); the PTY
fails with an `error` event (its handlers stay attached, only the tracking
entry goes away); the user restarts `"t1"` (the untracked old handle is
NOT stripped of its listeners by `destroyPTY`), giving a fresh session
(ref 2, handle 102) under the same id; then a late `exit` event of the old
handle 101 arrives. -/

/-- State after opening session "t1" (ref 1, handle 101). -/
def c3st1 : MState :=
  (createTerminal emptyM "t1" 1 101).toOption.getD emptyM

/-- State after handle 101 fires a spontaneous `error` event. -/
def c3st2 : MState :=
  (fireErrorSrc c3st1 1 101).1

/-- State after `restartTerminal "t1"` replaces the session with ref 2 /
handle 102. -/
def c3st3 : MState :=
  ((restartTerminalSrc c3st2 "t1" true 2 102).toOption.getD (c3st2, [])).1

end Mgr

namespace Shells

/-- Spawn oracle for the retry-policy counterexample: `/bin/bash` always
fails with a message carrying the transient `posix_spawnp` signature;
every other shell spawns at once. -/
def c9spawn : String → Nat → Except String Nat :=
  fun shell _ =>
    if shell = "/bin/bash" then .error "spawn posix_spawnp failed" else .ok 500

end Shells

/-! ## Helper lemmas about the `Map` model -/

theorem alGet_alDel_self {K V : Type} [DecidableEq K] (l : List (K × V)) (k : K) :
    alGet (alDel l k) k = none := by
  induction l with
  | nil => rfl
  | cons p rest ih =>
    obtain ⟨a, b⟩ := p
    by_cases h : a = k
    · simpa [alDel, h] using ih
    · simpa [alDel, alGet, h] using ih

theorem alGet_alDel_ne {K V : Type} [DecidableEq K] (l : List (K × V)) (k k' : K)
    (h : k' ≠ k) : alGet (alDel l k) k' = alGet l k' := by
  induction l with
  | nil => rfl
  | cons p rest ih =>
    obtain ⟨a, b⟩ := p
    by_cases hak : a = k
    · subst hak
      have h2 : a ≠ k' := fun e => h (Eq.symm e)
      simp [alDel, alGet, h2, ih]
    · by_cases hak' : a = k'
      · subst hak'
        simp [alDel, alGet, hak]
      · simp [alDel, alGet, hak, hak', ih]

theorem mem_alDel {K V : Type} [DecidableEq K] (l : List (K × V)) (k : K)
    (p : K × V) (h : p ∈ alDel l k) : p ∈ l := by
  induction l with
  | nil => simp [alDel] at h
  | cons q rest ih =>
    obtain ⟨a, b⟩ := q
    by_cases hak : a = k
    · simp only [alDel, if_pos hak] at h
      exact List.mem_cons_of_mem _ (ih h)
    · simp only [alDel, if_neg hak, List.mem_cons] at h
      rcases h with h | h
      · exact h ▸ List.mem_cons_self _ _
      · exact List.mem_cons_of_mem _ (ih h)

theorem alGet_eq_none_of_forall {K V : Type} [DecidableEq K]
    (l : List (K × V)) (k : K) (h : ∀ p ∈ l, p.1 ≠ k) : alGet l k = none := by
  induction l with
  | nil => rfl
  | cons q rest ih =>
    obtain ⟨a, b⟩ := q
    have ha : a ≠ k := h (a, b) (List.mem_cons_self _ _)
    simp only [alGet, if_neg ha]
    exact ih (fun p hp => h p (List.mem_cons_of_mem _ hp))

theorem alGet_append_none {K V : Type} [DecidableEq K]
    (l : List (K × V)) (a : K) (v : V) (k : K) (h : alGet l k = none) :
    alGet (l ++ [(a, v)]) k = if a = k then some v else none := by
  induction l with
  | nil => rfl
  | cons q rest ih =>
    obtain ⟨x, y⟩ := q
    by_cases hx : x = k
    · simp [alGet, hx] at h
    · simp only [alGet, if_neg hx] at h
      simp only [List.cons_append, alGet, if_neg hx]
      exact ih h

theorem alGet_append_some {K V : Type} [DecidableEq K]
    (l : List (K × V)) (a : K) (v : V) (k : K) (w : V) (h : alGet l k = some w) :
    alGet (l ++ [(a, v)]) k = some w := by
  induction l with
  | nil => simp [alGet] at h
  | cons q rest ih =>
    obtain ⟨x, y⟩ := q
    by_cases hx : x = k
    · simp only [alGet, if_pos hx] at h
      simp [List.cons_append, alGet, hx, h]
    · simp only [alGet, if_neg hx] at h
      simp only [List.cons_append, alGet, if_neg hx]
      exact ih h

/-! ## Claims -/

/-- C1: the spec says a failed direct privileged load falls back to
spawning the PTY Host sidecar with a 10-second ready gate.  The source's
own doc comment and commented-out strategy-2 block state that intent, but
the shipped `initializePtyLoading` throws instead ("DISABLED FOR
TESTING"), so the first creation call fails without ever spawning the
sidecar.  This theorem records the divergence: with strategy 1 failed the
uninitialized bridge yields exactly the testing error (never the sidecar
mode), while the unreached `ensureHostProcess` helper does implement the
bounded 10 s ready gate. -/
theorem C1_sidecar_fallback_disabled :
    Bridge.initializePtyLoading ⟨none, false⟩ false = .error Bridge.sidecarDisabledMsg ∧
    (∀ st b st', st.ptyLoadMode = none →
      Bridge.initializePtyLoading st b = .ok st' →
      st'.ptyLoadMode = some .remote) ∧
    Bridge.hostStartupSucceeds none = false ∧
    Bridge.hostStartupSucceeds (some 9999) = true ∧
    (∀ t, Bridge.hostStartupTimeoutMs ≤ t →
      Bridge.hostStartupSucceeds (some t) = false) := by
  refine ⟨rfl, ?_, rfl, by decide, ?_⟩
  · intro st b st' h1 h2
    simp only [Bridge.initializePtyLoading, h1, Option.isSome_none,
      Bool.false_eq_true, if_false] at h2
    split at h2
    · cases h2
      rfl
    · cases h2
  · intro t ht
    simp only [Bridge.hostStartupSucceeds, decide_eq_false_iff_not, not_lt]
    exact ht

/-- Witness for C1: the theorem applied at concrete inputs. -/
theorem C1_sidecar_fallback_disabled_witness :
    (⟨some .remote, true⟩ : Bridge.InitState).ptyLoadMode = some .remote ∧
    Bridge.hostStartupSucceeds (some 10000) = false :=
  ⟨C1_sidecar_fallback_disabled.2.1 ⟨none, false⟩ true ⟨some .remote, true⟩ rfl rfl,
   C1_sidecar_fallback_disabled.2.2.2.2 10000 (le_refl _)⟩

/-- Helper: any operation on a handle whose `killed` flag is set
short-circuits with no host traffic. -/
theorem kill_on_killed (q : RemotePtyM.RPty) (hq : q.killed = true)
    (sig : Option String) : q.kill sig = (q, []) := by
  simp [RemotePtyM.RPty.kill, hq]

theorem write_on_killed (q : RemotePtyM.RPty) (hq : q.killed = true)
    (d : String) : q.write d = (q, []) := by
  simp [RemotePtyM.RPty.write, hq]

theorem resize_on_killed (q : RemotePtyM.RPty) (hq : q.killed = true)
    (c r : Nat) : q.resize c r = (q, []) := by
  simp [RemotePtyM.RPty.resize, hq]

/-- C7: `RemotePty.kill` marks the handle killed immediately and sends
exactly one `kill` request; a second `kill` — and any later `write` or
`resize` — on the killed handle is a no-op with no host traffic, so two
`kill` calls have the same observable effect as one; and the bridge's
exit-event dispatch deletes the pid on the first `exit` event, so a second
`exit` event for the same pid emits nothing (no duplicate exit). -/
theorem C7_kill_idempotent :
    (∀ (p : RemotePtyM.RPty) sig, (p.kill sig).1.killed = true) ∧
    (∀ (p : RemotePtyM.RPty) sig, p.killed = false →
      (p.kill sig).2 = [.kill p.pid sig]) ∧
    (∀ (p : RemotePtyM.RPty) sig sig2,
      ((p.kill sig).1.kill sig2) = ((p.kill sig).1, [])) ∧
    (∀ (p : RemotePtyM.RPty) sig d,
      ((p.kill sig).1.write d) = ((p.kill sig).1, [])) ∧
    (∀ (p : RemotePtyM.RPty) sig c r,
      ((p.kill sig).1.resize c r) = ((p.kill sig).1, [])) ∧
    (∀ (st : Bridge.BState) pid code sg,
      (Bridge.step (Bridge.step st (.evExit pid code sg)).1 (.evExit pid code sg)).2 = []) := by
  have hk : ∀ (p : RemotePtyM.RPty) sig, (p.kill sig).1.killed = true := by
    intro p sig
    by_cases h : p.killed
    · simp [RemotePtyM.RPty.kill, h]
    · simp [RemotePtyM.RPty.kill, h]
  refine ⟨hk, ?_, ?_, ?_, ?_, ?_⟩
  · intro p sig h
    simp [RemotePtyM.RPty.kill, h]
  · intro p sig sig2
    exact kill_on_killed _ (hk p sig) sig2
  · intro p sig d
    exact write_on_killed _ (hk p sig) d
  · intro p sig c r
    exact resize_on_killed _ (hk p sig) c r
  · intro st pid code sg
    simp only [Bridge.step]
    cases h : alGet st.activePtys pid with
    | none => simp [Bridge.step, h]
    | some ref => simp [Bridge.step, alGet_alDel_self]

/-- Witness for C7: the theorem applied to a live concrete handle. -/
theorem C7_kill_idempotent_witness :
    ((⟨5, 80, 24, "zsh", false⟩ : RemotePtyM.RPty).kill none).2 = [.kill 5 none] :=
  C7_kill_idempotent.2.1 ⟨5, 80, 24, "zsh", false⟩ none rfl

/-- Helper: a removed handle is not in the set afterwards. -/
theorem not_mem_setRemove (l : List Nat) (h : Nat) : h ∉ Mgr.setRemove l h := by
  simp [Mgr.setRemove]

/-- C10: `PTYManager.destroyPTY` is a complete no-op on an untracked
handle; on a tracked handle it removes it from tracking and strips all its
listeners before any termination action, terminates gracefully by writing
Ctrl-C then `exit\r` (never calling `kill()`), swallows write failures on
a dead process (a warning only — the call still returns normally), and —
because every listener was detached first — performs no handler action
itself and leaves no listener for the handle's later exit/error events. -/
theorem C10_destroyPTY_graceful (st : Mgr.MState) (h : Nat) (alive : Bool) :
    (h ∉ st.activePTYs → Mgr.destroyPTY st h alive = (st, [])) ∧
    (h ∈ st.activePTYs →
      (Mgr.destroyPTY st h alive).1.activePTYs = Mgr.setRemove st.activePTYs h ∧
      (Mgr.destroyPTY st h alive).1.listeners = Mgr.setRemove st.listeners h ∧
      (Mgr.destroyPTY st h alive).1.heap = st.heap ∧
      (Mgr.destroyPTY st h alive).1.registry = st.registry ∧
      (Mgr.destroyPTY st h alive).2 =
        .untracked h :: .listenersRemoved h ::
          (if alive then [.wroteToPty h "\x03", .wroteToPty h "exit\r"]
           else [.warnedWriteFailed h])) ∧
    Mgr.beforeAllB (Mgr.destroyPTY st h alive).2 Mgr.isUntrack Mgr.isTermination = true ∧
    Mgr.beforeAllB (Mgr.destroyPTY st h alive).2 Mgr.isListenerRemoval Mgr.isTermination = true ∧
    (∀ a ∈ (Mgr.destroyPTY st h alive).2, Mgr.isKill a = false) ∧
    (∀ a ∈ (Mgr.destroyPTY st h alive).2, Mgr.isHandlerAction a = false) ∧
    (h ∈ st.activePTYs →
      h ∉ (Mgr.destroyPTY st h alive).1.listeners ∧
      h ∉ (Mgr.destroyPTY st h alive).1.activePTYs ∧
      (∀ r id code,
        Mgr.fireExit7 (Mgr.destroyPTY st h alive).1 r id h code =
          ((Mgr.destroyPTY st h alive).1, [])) ∧
      (∀ r code,
        Mgr.fireExitSrc (Mgr.destroyPTY st h alive).1 r h code =
          ((Mgr.destroyPTY st h alive).1, []))) := by
  by_cases hmem : h ∈ st.activePTYs
  · have hd : Mgr.destroyPTY st h alive =
      ({ st with activePTYs := Mgr.setRemove st.activePTYs h,
                 listeners := Mgr.setRemove st.listeners h },
       .untracked h :: .listenersRemoved h ::
         (if alive then [.wroteToPty h "\x03", .wroteToPty h "exit\r"]
          else [.warnedWriteFailed h])) := by
      cases alive <;> simp [Mgr.destroyPTY, hmem]
    rw [hd]
    refine ⟨fun hc => absurd hmem hc, fun _ => ⟨rfl, rfl, rfl, rfl, rfl⟩,
      ?_, ?_, ?_, ?_, fun _ => ⟨?_, ?_, ?_, ?_⟩⟩
    · cases alive <;>
        simp [Mgr.beforeAllB, Mgr.beforeAllStep, Mgr.isUntrack, Mgr.isTermination]
    · cases alive <;>
        simp [Mgr.beforeAllB, Mgr.beforeAllStep, Mgr.isListenerRemoval, Mgr.isTermination]
    · intro a ha
      cases alive <;> simp at ha <;>
        (rcases ha with rfl | rfl | rfl | rfl <;> rfl)
    · intro a ha
      cases alive <;> simp at ha <;>
        (rcases ha with rfl | rfl | rfl | rfl <;> rfl)
    · exact not_mem_setRemove st.listeners h
    · exact not_mem_setRemove st.activePTYs h
    · intro r id code
      simp [Mgr.fireExit7, Mgr.setRemove]
    · intro r code
      simp [Mgr.fireExitSrc, Mgr.setRemove]
  · have hz : Mgr.destroyPTY st h alive = (st, []) := by
      simp [Mgr.destroyPTY, hmem]
    rw [hz]
    refine ⟨fun _ => rfl, fun hc => absurd hc hmem, rfl, rfl, ?_, ?_,
      fun hc => absurd hc hmem⟩
    · intro a ha
      simp at ha
    · intro a ha
      simp at ha

/-- Witness for C10: the theorem applied to a concrete tracked handle. -/
theorem C10_destroyPTY_graceful_witness :
    (Mgr.destroyPTY ⟨fun _ => ⟨"", 0, false, none⟩, [], [7], [7]⟩ 7 true).2 =
      .untracked 7 :: .listenersRemoved 7 ::
        (if true then [.wroteToPty 7 "\x03", .wroteToPty 7 "exit\r"]
         else [.warnedWriteFailed 7]) :=
  ((C10_destroyPTY_graceful ⟨fun _ => ⟨"", 0, false, none⟩, [], [7], [7]⟩ 7 true).2.1
    (by simp)).2.2.2.2

/-- C4 counterexample: the claim asserts that BOTH endpoints silently
discard a non-empty line that does not start with `{`, sending no protocol
message in reaction.  The host endpoint does not: `PtyHost.handleLine` has
no leading-brace filter, so the noise line `"hello"` fails `JSON.parse`
and the catch block SENDS a response message (empty-string id, protocol
error) back over the transport. -/
theorem C4_counterexample :
    Proto.jsTrim "hello" = "hello" ∧
    Proto.startsWithBrace "hello" = false ∧
    Proto.jsonParse "hello" = none ∧
    PtyHost.handleLine (.ok 1) ⟨[]⟩ "hello" =
      (⟨[]⟩, [.sendResponse (some (.jstr "")) false (some PtyHost.protocolErrorMsg)]) :=
  ⟨rfl, rfl, rfl, rfl⟩

/-- C4 (amended): the controller endpoint behaves as claimed — a noise
line (non-empty after trimming, not starting with `{`) produces only
debug logs (nothing dispatched, nothing sent, nothing thrown), and a
`{`-line that fails to parse produces only a warning log.  The host
endpoint discards empty lines, and silently ignores a parsed value other
than `null` whose `type` property is not the string `"request"`; but it
answers with an error response carrying the empty-string id BOTH any
line that fails `JSON.parse` — including non-`{` noise — AND the line
parsing to `null`, where the `msg.type` access itself throws a
`TypeError` inside the same `try`/`catch`; neither failure is fatal and
no event is delivered. -/
theorem C4_framing :
    (∀ line : String, Proto.jsTrim line ≠ "" →
        Proto.startsWithBrace (Proto.jsTrim line) = false →
        Bridge.ctrlHandleLine line = [.debugLogged, .debugLogged]) ∧
    (∀ line : String, Proto.jsTrim line ≠ "" →
        Proto.startsWithBrace (Proto.jsTrim line) = true →
        Proto.jsonParse (Proto.jsTrim line) = none →
        Bridge.ctrlHandleLine line = [.debugLogged, .warnedMalformed]) ∧
    (∀ (spawn : Except String Int) (st : PtyHost.HState) (line : String),
        Proto.jsTrim line ≠ "" → Proto.jsonParse (Proto.jsTrim line) = none →
        PtyHost.handleLine spawn st line =
          (st, [.sendResponse (some (.jstr "")) false (some PtyHost.protocolErrorMsg)])) ∧
    (∀ (spawn : Except String Int) (st : PtyHost.HState) (line : String)
        (msg : Proto.JVal),
        Proto.jsTrim line ≠ "" → Proto.jsonParse (Proto.jsTrim line) = some msg →
        msg ≠ .jnull →
        (∀ t, Proto.getField msg "type" = some (.jstr t) → t ≠ "request") →
        PtyHost.handleLine spawn st line = (st, [])) ∧
    (∀ (spawn : Except String Int) (st : PtyHost.HState) (line : String),
        Proto.jsTrim line ≠ "" → Proto.jsonParse (Proto.jsTrim line) = some .jnull →
        PtyHost.handleLine spawn st line =
          (st, [.sendResponse (some (.jstr "")) false (some PtyHost.protocolErrorMsg)])) := by
  refine ⟨?_, ?_, ?_, ?_, ?_⟩
  · intro line h1 h2
    simp [Bridge.ctrlHandleLine, h1, h2]
  · intro line h1 h2 h3
    simp [Bridge.ctrlHandleLine, h1, h2, h3]
  · intro spawn st line h1 h2
    simp [PtyHost.handleLine, h1, h2]
  · intro spawn st line msg h1 h2 hnn h3
    simp only [PtyHost.handleLine, if_neg h1, h2]
    cases msg with
    | jnull => exact absurd rfl hnn
    | jbool b => rfl
    | jnum n => rfl
    | jstr t => rfl
    | jarr xs => rfl
    | jobj fs =>
      cases hg : Proto.getField (.jobj fs) "type" with
      | none => simp [PtyHost.jsField, hg]
      | some v =>
        cases v with
        | jstr t => simp [PtyHost.jsField, hg, h3 t hg]
        | jnull => simp [PtyHost.jsField, hg]
        | jbool b => simp [PtyHost.jsField, hg]
        | jnum n => simp [PtyHost.jsField, hg]
        | jarr xs2 => simp [PtyHost.jsField, hg]
        | jobj fs2 => simp [PtyHost.jsField, hg]
  · intro spawn st line h1 h2
    simp [PtyHost.handleLine, h1, h2, PtyHost.jsField]

/-- Witness for C4: the amended theorem applied to concrete lines
("noise", a malformed brace line, a parsed non-request value, and the
`null` line the host answers with a protocol-error response). -/
theorem C4_framing_witness :
    Bridge.ctrlHandleLine "noise" = [.debugLogged, .debugLogged] ∧
    Bridge.ctrlHandleLine "\x7boops" = [.debugLogged, .warnedMalformed] ∧
    PtyHost.handleLine (.ok 1) ⟨[]⟩ "123" = (⟨[]⟩, []) ∧
    PtyHost.handleLine (.ok 1) ⟨[]⟩ "null" =
      (⟨[]⟩, [.sendResponse (some (.jstr "")) false (some PtyHost.protocolErrorMsg)]) :=
  ⟨C4_framing.1 "noise" (by decide) rfl,
   C4_framing.2.1 "\x7boops" (by decide) rfl rfl,
   C4_framing.2.2.2.1 (.ok 1) ⟨[]⟩ "123" (.jnum (some 123)) (by decide) rfl
     (by intro h; cases h) (fun t ht => by simp [Proto.getField] at ht),
   C4_framing.2.2.2.2 (.ok 1) ⟨[]⟩ "null" (by decide) rfl⟩

/-- C8: the controller's `write` path registers no pending entry (so no
response ever settles it — a response bearing the id the write consumed is
ignored), writes one line, and returns immediately; the host's
`handleWrite` on a pid that is not in its session table is a silent no-op,
and `handleWrite` never produces a response or an event message at all. -/
theorem C8_write_fire_and_forget :
    (∀ st : Bridge.BState,
      (Bridge.step st .sendWrite).1.pending = st.pending ∧
      (Bridge.step st .sendWrite).2 = [.stdinLine "write"]) ∧
    (∀ (st : Bridge.BState) (b : Bool), alGet st.pending st.messageId = none →
      Bridge.step (Bridge.step st .sendWrite).1 (.response st.messageId b) =
        ((Bridge.step st .sendWrite).1, [])) ∧
    (∀ (st : PtyHost.HState) (params : Proto.JVal) (pid : Int),
      params ≠ .jnull →
      PtyHost.asPidKey (Proto.getField params "pid") = some pid →
      pid ∉ st.sessions →
      PtyHost.handleWrite st (some params) = .ok (st, [])) ∧
    (∀ (st : PtyHost.HState) (params : Option Proto.JVal)
        (r : PtyHost.HState × List PtyHost.HOut),
      PtyHost.handleWrite st params = .ok r →
      (∀ idv hasRes err, PtyHost.HOut.sendResponse idv hasRes err ∉ r.2) ∧
      (∀ n, PtyHost.HOut.sendEvent n ∉ r.2)) := by
  refine ⟨?_, ?_, ?_, ?_⟩
  · intro st
    exact ⟨rfl, rfl⟩
  · intro st b hfresh
    simp [Bridge.step, hfresh]
  · intro st params pid hnn hpid hmem
    cases params with
    | jnull => exact absurd rfl hnn
    | jbool b => simp [PtyHost.asPidKey, Proto.getField] at hpid
    | jnum n => simp [PtyHost.asPidKey, Proto.getField] at hpid
    | jstr t => simp [PtyHost.asPidKey, Proto.getField] at hpid
    | jarr xs => simp [PtyHost.asPidKey, Proto.getField] at hpid
    | jobj fs =>
      simp only [PtyHost.handleWrite, PtyHost.jsField, Except.bind]
      rw [hpid]
      simp [hmem]
  · intro st params r hr
    have hshape : r.2 = [] ∨ ∃ pid d, r.2 = [PtyHost.HOut.ptyWrite pid d] := by
      rcases params with _ | v
      · simp [PtyHost.handleWrite, PtyHost.jsField, Except.bind] at hr
      rcases v with _ | b | n | t | xs | fs
      · simp [PtyHost.handleWrite, PtyHost.jsField, Except.bind] at hr
      · simp [PtyHost.handleWrite, PtyHost.jsField, PtyHost.asPidKey,
          Proto.getField, Except.bind] at hr
        left
        rw [← hr]
      · simp [PtyHost.handleWrite, PtyHost.jsField, PtyHost.asPidKey,
          Proto.getField, Except.bind] at hr
        left
        rw [← hr]
      · simp [PtyHost.handleWrite, PtyHost.jsField, PtyHost.asPidKey,
          Proto.getField, Except.bind] at hr
        left
        rw [← hr]
      · simp [PtyHost.handleWrite, PtyHost.jsField, PtyHost.asPidKey,
          Proto.getField, Except.bind] at hr
        left
        rw [← hr]
      · simp only [PtyHost.handleWrite, PtyHost.jsField, Except.bind] at hr
        split at hr
        · split at hr
          · injection hr with h2
            subst h2
            right
            exact ⟨_, _, rfl⟩
          · injection hr with h2
            subst h2
            left
            rfl
        · injection hr with h2
          subst h2
          left
          rfl
    rcases hshape with h2 | ⟨pid, d, h2⟩ <;> rw [h2] <;>
      exact ⟨fun idv hasRes err => by simp, fun n => by simp⟩

/-- Witness for C8: the theorem applied at a bridge state with one pending
entry and at a concrete unknown-pid write. -/
theorem C8_write_fire_and_forget_witness :
    Bridge.step (Bridge.step ⟨4, [(2, "kill")], [], [], []⟩ .sendWrite).1 (.response 4 false) =
      ((Bridge.step ⟨4, [(2, "kill")], [], [], []⟩ .sendWrite).1, []) ∧
    PtyHost.handleWrite ⟨[9]⟩ (some (.jobj [("pid", .jnum (some 42)), ("data", .jstr "ls")])) =
      .ok (⟨[9]⟩, []) :=
  ⟨C8_write_fire_and_forget.2.1 ⟨4, [(2, "kill")], [], [], []⟩ false rfl,
   C8_write_fire_and_forget.2.2.1 ⟨[9]⟩ (.jobj [("pid", .jnum (some 42)), ("data", .jstr "ls")])
     42 (by intro h; cases h) rfl (by decide)⟩

/-! ## Helper lemmas for the manager model -/

theorem setRemove_of_not_mem (l : List Nat) (h : Nat) (hm : h ∉ l) :
    Mgr.setRemove l h = l := by
  rw [Mgr.setRemove, List.filter_eq_self]
  intro a ha
  simp only [ne_eq, decide_not, Bool.not_eq_eq_eq_not, Bool.not_true,
    decide_eq_false_iff_not]
  exact fun e => hm (e ▸ ha)

theorem foldl_beforeAllStep_sat (tr : List Mgr.MOut) (a b : Mgr.MOut → Bool) :
    (tr.foldl (Mgr.beforeAllStep a b) (true, true)).1 = true := by
  induction tr with
  | nil => rfl
  | cons x tr ih => simpa [Mgr.beforeAllStep] using ih

theorem fireExit7_noop_unlistened (s : Mgr.MState) (r : Nat) (id : String)
    (h : Nat) (code : Int) (hl : h ∉ s.listeners) :
    Mgr.fireExit7 s r id h code = (s, []) := by
  simp [Mgr.fireExit7, hl]

theorem fireExitSrc_noop_unlistened (s : Mgr.MState) (r : Nat)
    (h : Nat) (code : Int) (hl : h ∉ s.listeners) :
    Mgr.fireExitSrc s r h code = (s, []) := by
  simp [Mgr.fireExitSrc, hl]

theorem fireExit7_noop_unregistered (s : Mgr.MState) (r : Nat) (id : String)
    (h : Nat) (code : Int) (hreg : alGet s.registry id = none)
    (hm : h ∉ s.activePTYs) :
    Mgr.fireExit7 s r id h code = (s, []) := by
  by_cases hl : h ∈ s.listeners
  · simp [Mgr.fireExit7, hl, hreg, setRemove_of_not_mem _ _ hm]
  · simp [Mgr.fireExit7, hl]

theorem destroyPTY_registry (s : Mgr.MState) (h : Nat) (a : Bool) :
    (Mgr.destroyPTY s h a).1.registry = s.registry := by
  by_cases hm : h ∈ s.activePTYs <;> cases a <;> simp [Mgr.destroyPTY, hm]

theorem destroyPTY_heap (s : Mgr.MState) (h : Nat) (a : Bool) :
    (Mgr.destroyPTY s h a).1.heap = s.heap := by
  by_cases hm : h ∈ s.activePTYs <;> cases a <;> simp [Mgr.destroyPTY, hm]

theorem destroyPTY_listeners_tracked (s : Mgr.MState) (h : Nat) (a : Bool)
    (hm : h ∈ s.activePTYs) :
    (Mgr.destroyPTY s h a).1.listeners = Mgr.setRemove s.listeners h := by
  cases a <;> simp [Mgr.destroyPTY, hm]

theorem destroyPTY_untracked (s : Mgr.MState) (h : Nat) (a : Bool)
    (hm : h ∉ s.activePTYs) :
    Mgr.destroyPTY s h a = (s, []) := by
  simp [Mgr.destroyPTY, hm]

theorem destroyPTY_activePTYs_tracked (s : Mgr.MState) (h : Nat) (a : Bool)
    (hm : h ∈ s.activePTYs) :
    (Mgr.destroyPTY s h a).1.activePTYs = Mgr.setRemove s.activePTYs h := by
  cases a <;> simp [Mgr.destroyPTY, hm]

/-- C2 counterexample: the claim requires `destroyTerminal` to remove the
id from the registry BEFORE terminating the handle.  The
src/core/terminal-manager.ts implementation does the opposite: on a
concrete one-session state its trace performs the graceful-termination
writes first and the registry deletion last. -/
theorem C2_counterexample :
    (Mgr.destroyTerminalSrc
        ⟨fun _ => ⟨"t1", 101, true, none⟩, [("t1", 1)], [101], [101]⟩ "t1" true).2 =
      [.sessionMarkedInactive 1, .untracked 101, .listenersRemoved 101,
       .wroteToPty 101 "\x03", .wroteToPty 101 "exit\r", .deregistered "t1"] ∧
    Mgr.beforeAllB
      (Mgr.destroyTerminalSrc
        ⟨fun _ => ⟨"t1", 101, true, none⟩, [("t1", 1)], [101], [101]⟩ "t1" true).2
      Mgr.isDeregister Mgr.isTermination = false := by
  constructor
  · rfl
  · rfl

/-- C2 (amended): in the part_007 manager, `destroyTerminal` removes the
id from the registry before any termination action, `getTerminal` finds
nothing afterwards, and a late exit event of the destroyed session's
handle is a complete no-op.  In the src/core manager the registry deletion
instead FOLLOWS the termination of the handle (see the counterexample),
but the rest holds there too: after `destroyTerminal` returns,
`getTerminal` finds nothing, and — provided the handle was still tracked
at destroy time, so that `destroyPTY` detached its listeners — its late
exit event is a no-op as well. -/
theorem C2_destroy_registry (st : Mgr.MState) (id : String) (r : Nat)
    (alive : Bool) (hreg : alGet st.registry id = some r) :
    (Mgr.getTerminal (Mgr.destroyTerminal7 st id alive).1 id = none ∧
     Mgr.beforeAllB (Mgr.destroyTerminal7 st id alive).2
       Mgr.isDeregister Mgr.isTermination = true ∧
     (∀ code,
       Mgr.fireExit7 (Mgr.destroyTerminal7 st id alive).1 r id
           ((st.heap r).handle) code =
         ((Mgr.destroyTerminal7 st id alive).1, []))) ∧
    (Mgr.getTerminal (Mgr.destroyTerminalSrc st id alive).1 id = none ∧
     ((st.heap r).handle ∈ st.activePTYs →
      ∀ code,
        Mgr.fireExitSrc (Mgr.destroyTerminalSrc st id alive).1 r
            ((st.heap r).handle) code =
          ((Mgr.destroyTerminalSrc st id alive).1, []))) := by
  refine ⟨⟨?_, ?_, ?_⟩, ?_, ?_⟩
  · simp only [Mgr.destroyTerminal7, hreg]
    simp [Mgr.getTerminal, destroyPTY_registry, Mgr.heapSet, alGet_alDel_self]
  · simp only [Mgr.destroyTerminal7, hreg]
    simp [Mgr.beforeAllB, Mgr.beforeAllStep, Mgr.isDeregister,
      Mgr.isTermination, foldl_beforeAllStep_sat]
  · intro code
    by_cases hm : (st.heap r).handle ∈ st.activePTYs
    · apply fireExit7_noop_unlistened
      simp only [Mgr.destroyTerminal7, hreg]
      rw [destroyPTY_listeners_tracked]
      · exact not_mem_setRemove _ _
      · exact hm
    · apply fireExit7_noop_unregistered
      · simp only [Mgr.destroyTerminal7, hreg]
        rw [destroyPTY_registry]
        simp [Mgr.heapSet, alGet_alDel_self]
      · simp only [Mgr.destroyTerminal7, hreg]
        rw [destroyPTY_untracked]
        · exact hm
        · exact hm
  · simp only [Mgr.destroyTerminalSrc, hreg]
    simp [Mgr.getTerminal, Mgr.heapSet, alGet_alDel_self]
  · intro hm code
    apply fireExitSrc_noop_unlistened
    simp only [Mgr.destroyTerminalSrc, hreg, Mgr.heapSet]
    rw [destroyPTY_listeners_tracked]
    · exact not_mem_setRemove _ _
    · exact hm

/-- Witness for C2: the amended theorem applied to a concrete registered
session. -/
theorem C2_destroy_registry_witness :
    Mgr.getTerminal
      (Mgr.destroyTerminal7
        ⟨fun _ => ⟨"t1", 101, true, none⟩, [("t1", 1)], [101], [101]⟩ "t1" true).1
      "t1" = none :=
  (C2_destroy_registry
    ⟨fun _ => ⟨"t1", 101, true, none⟩, [("t1", 1)], [101], [101]⟩ "t1" 1 true rfl).1.1

/-- C3 counterexample: the claim asserts that every exit/error handler
re-checks handle identity before acting.  The src/core manager's handlers
do not.  Concrete run (each state built by the embedded operations):
session "t1" is created (ref 1, handle 101); handle 101 fires a
spontaneous `error` (its listeners stay attached because only the tracking
entry is removed); `restartTerminal "t1"` replaces the session (ref 2,
handle 102) — `destroyPTY` no-ops on the already-untracked old handle, so
its listeners survive; then a late `exit` of old handle 101 arrives: the
currently-registered session holds handle 102, yet the stale handler still
executes its `isActive` store on the replaced session object instead of
dropping the event. -/
theorem C3_counterexample :
    (Mgr.createTerminal Mgr.emptyM "t1" 1 101).toOption.isSome = true ∧
    (Mgr.restartTerminalSrc Mgr.c3st2 "t1" true 2 102).toOption.isSome = true ∧
    alGet Mgr.c3st3.registry "t1" = some 2 ∧
    (Mgr.c3st3.heap 2).handle = 102 ∧
    (101 : Nat) ∈ Mgr.c3st3.listeners ∧
    (Mgr.fireExitSrc Mgr.c3st3 1 101 0).2 = [.sessionMarkedInactive 1] := by
  refine ⟨rfl, rfl, by decide, rfl, by decide, rfl⟩

/-- C3 (amended): in the part_007 manager the exit and error handlers do
re-check identity — whenever the registered session for the id is missing
or holds a different handle than the one that fired, they touch neither
the heap nor the registry and perform no action.  In the src/core manager
the handlers perform no such check: whenever they run (listeners still
attached) they unconditionally store `isActive := false` on the captured
session object; staleness protection there rests solely on
`destroyPTY.removeAllListeners`, and a handler whose handle left tracking
without a destroy (e.g. after a spontaneous error) still acts on a
replaced session. -/
theorem C3_handler_guard :
    (∀ (st : Mgr.MState) (r : Nat) (id : String) (h : Nat) (code : Int),
      (∀ r', alGet st.registry id = some r' → (st.heap r').handle ≠ h) →
      (Mgr.fireExit7 st r id h code).2 = [] ∧
      (Mgr.fireExit7 st r id h code).1.heap = st.heap ∧
      (Mgr.fireExit7 st r id h code).1.registry = st.registry) ∧
    (∀ (st : Mgr.MState) (r : Nat) (id : String) (h : Nat),
      (∀ r', alGet st.registry id = some r' → (st.heap r').handle ≠ h) →
      (Mgr.fireError7 st r id h).2 = [] ∧
      (Mgr.fireError7 st r id h).1.heap = st.heap ∧
      (Mgr.fireError7 st r id h).1.registry = st.registry) ∧
    (∀ (st : Mgr.MState) (r : Nat) (h : Nat) (code : Int),
      h ∈ st.listeners →
      (Mgr.fireExitSrc st r h code).2 ≠ [] ∧
      ((Mgr.fireExitSrc st r h code).1.heap r).isActive = false) ∧
    (∀ (st : Mgr.MState) (r : Nat) (h : Nat),
      h ∉ st.listeners →
      Mgr.fireExitSrc st r h 0 = (st, []) ∧
      Mgr.fireErrorSrc st r h = (st, [])) := by
  refine ⟨?_, ?_, ?_, ?_⟩
  · intro st r id h code hstale
    by_cases hl : h ∈ st.listeners
    · cases hg : alGet st.registry id with
      | none => simp [Mgr.fireExit7, hl, hg]
      | some r' =>
        have hne := hstale r' hg
        simp [Mgr.fireExit7, hl, hg, hne]
    · simp [Mgr.fireExit7, hl]
  · intro st r id h hstale
    by_cases hl : h ∈ st.listeners
    · cases hg : alGet st.registry id with
      | none => simp [Mgr.fireError7, hl, hg]
      | some r' =>
        have hne := hstale r' hg
        simp [Mgr.fireError7, hl, hg, hne]
    · simp [Mgr.fireError7, hl]
  · intro st r h code hl
    constructor
    · cases hv : ((Mgr.heapSet { st with activePTYs := Mgr.setRemove st.activePTYs h }
          r (fun s => { s with isActive := false })).heap r).view <;>
        simp [Mgr.fireExitSrc, hl, hv]
    · simp only [Mgr.fireExitSrc, hl, if_true]
      cases hv : ((Mgr.heapSet { st with activePTYs := Mgr.setRemove st.activePTYs h }
          r (fun s => { s with isActive := false })).heap r).view <;>
        simp [hv, Mgr.heapSet]
  · intro st r h hl
    exact ⟨fireExitSrc_noop_unlistened st r h 0 hl, by simp [Mgr.fireErrorSrc, hl]⟩

/-- Witness for C3: the amended theorem applied at a concrete state whose
registered handle differs from the firing one. -/
theorem C3_handler_guard_witness :
    (Mgr.fireExit7 ⟨fun _ => ⟨"t1", 102, true, none⟩, [("t1", 9)], [102], [101, 102]⟩
        1 "t1" 101 0).2 = [] :=
  ((C3_handler_guard.1 ⟨fun _ => ⟨"t1", 102, true, none⟩, [("t1", 9)], [102], [101, 102]⟩
      1 "t1" 101 0) (fun r' hr' => by cases hr'; decide)).1

theorem mem_alDel_of_ne {K V : Type} [DecidableEq K] (l : List (K × V)) (k : K)
    (p : K × V) (hp : p ∈ l) (hne : p.1 ≠ k) : p ∈ alDel l k := by
  induction l with
  | nil => simp at hp
  | cons q rest ih =>
    obtain ⟨a, b⟩ := q
    rcases List.mem_cons.mp hp with rfl | hp'
    · simp only [alDel, if_neg hne]
      exact List.mem_cons_self _ _
    · by_cases hak : a = k
      · simp only [alDel, if_pos hak]
        exact ih hp'
      · simp only [alDel, if_neg hak]
        exact List.mem_cons_of_mem _ (ih hp')

/-- C6: on host-process exit the bridge rejects every pending RPC, makes
every tracked remote handle emit `exit` with the sentinel code `-1`
(marking those handle objects killed), and clears the pid registries and
the pending table; and this is the sole cancel-everything path — every
other single transition preserves every pending entry except, at most,
the entries of one single id. -/
theorem C6_host_exit_cancels_all (st : Bridge.BState) :
    (Bridge.step st .hostExit).1.pending = [] ∧
    (Bridge.step st .hostExit).1.activePtys = [] ∧
    (Bridge.step st .hostExit).1.tempPidMap = [] ∧
    (∀ pr ∈ st.activePtys,
      Bridge.BOut.emitted pr.2 (.exit (-1) none) ∈ (Bridge.step st .hostExit).2) ∧
    (∀ pr ∈ st.pending,
      Bridge.BOut.rejectedHostExit pr.1 ∈ (Bridge.step st .hostExit).2) ∧
    (∀ ref ev, Bridge.BOut.emitted ref ev ∈ (Bridge.step st .hostExit).2 →
      ev = .exit (-1) none ∧ ((-1 : Int) ≠ 0)) ∧
    (∀ pr ∈ st.activePtys, ∀ q ∈ (Bridge.step st .hostExit).1.remotes,
      q.1 = pr.2 → q.2.killed = true) ∧
    (∀ e, e ≠ Bridge.BEv.hostExit → ∃ k, ∀ pr ∈ st.pending,
      pr.1 ≠ k → pr ∈ (Bridge.step st e).1.pending) := by
  refine ⟨rfl, rfl, rfl, ?_, ?_, ?_, ?_, ?_⟩
  · intro pr hpr
    simp only [Bridge.step, List.mem_append, List.mem_map]
    exact Or.inl ⟨pr, hpr, rfl⟩
  · intro pr hpr
    simp only [Bridge.step, List.mem_append, List.mem_map]
    exact Or.inr ⟨pr, hpr, rfl⟩
  · intro ref ev hmem
    simp only [Bridge.step, List.mem_append, List.mem_map] at hmem
    rcases hmem with ⟨pr, _, he⟩ | ⟨pr, _, he⟩
    · cases he
      exact ⟨rfl, by decide⟩
    · cases he
  · intro pr hpr q hq hq1
    simp only [Bridge.step, Bridge.killRefs, List.mem_map] at hq
    rcases hq with ⟨p, hp, he⟩
    by_cases hin : ∃ a ∈ st.activePtys, a.2 = p.1
    · rw [if_pos hin] at he
      rw [← he]
    · rw [if_neg hin] at he
      exact absurd ⟨pr, hpr, by rw [he, hq1]⟩ hin
  · intro e hne
    cases e with
    | sendRequest m =>
      exact ⟨st.messageId, fun pr hpr _ => List.mem_append_left _ hpr⟩
    | sendWrite => exact ⟨0, fun pr hpr _ => hpr⟩
    | response id isErr =>
      refine ⟨id, fun pr hpr hprne => ?_⟩
      simp only [Bridge.step]
      cases hg : alGet st.pending id with
      | none => exact hpr
      | some m => exact mem_alDel_of_ne _ _ _ hpr hprne
    | timeoutFire id =>
      refine ⟨id, fun pr hpr hprne => ?_⟩
      simp only [Bridge.step]
      cases hg : alGet st.pending id with
      | none => exact hpr
      | some m => exact mem_alDel_of_ne _ _ _ hpr hprne
    | evData pid data =>
      refine ⟨0, fun pr hpr _ => ?_⟩
      simp only [Bridge.step]
      cases hg : alGet st.activePtys pid with
      | none => exact hpr
      | some ref => exact hpr
    | evExit pid code sg =>
      refine ⟨0, fun pr hpr _ => ?_⟩
      simp only [Bridge.step]
      cases hg : alGet st.activePtys pid with
      | none => exact hpr
      | some ref => exact hpr
    | evError pid =>
      refine ⟨0, fun pr hpr _ => ?_⟩
      simp only [Bridge.step]
      cases hg : alGet st.activePtys pid with
      | none => exact hpr
      | some ref => exact hpr
    | hostExit => exact absurd rfl hne

/-- Witness for C6: the theorem applied to a state with one tracked handle
and one pending request. -/
theorem C6_host_exit_cancels_all_witness :
    Bridge.BOut.emitted 3 (.exit (-1) none) ∈
      (Bridge.step ⟨7, [(5, "create")], [(42, 3)], [], [(3, ⟨42, 80, 24, "bash", false⟩)]⟩
        .hostExit).2 :=
  (C6_host_exit_cancels_all
    ⟨7, [(5, "create")], [(42, 3)], [], [(3, ⟨42, 80, 24, "bash", false⟩)]⟩).2.2.2.1
    (42, 3) (by decide)

theorem alGet_mem {K V : Type} [DecidableEq K] (l : List (K × V)) (k : K) (v : V)
    (h : alGet l k = some v) : (k, v) ∈ l := by
  induction l with
  | nil => cases h
  | cons q rest ih =>
    obtain ⟨a, b⟩ := q
    by_cases hak : a = k
    · subst hak
      simp only [alGet, if_pos rfl] at h
      cases h
      exact List.mem_cons_self _ _
    · simp only [alGet, if_neg hak] at h
      exact List.mem_cons_of_mem _ (ih h)

theorem alGet_ne_none_of_mem {K V : Type} [DecidableEq K] (l : List (K × V))
    (k : K) (v : V) (h : (k, v) ∈ l) : alGet l k ≠ none := by
  induction l with
  | nil => simp at h
  | cons q rest ih =>
    obtain ⟨a, b⟩ := q
    rcases List.mem_cons.mp h with he | h'
    · cases he
      simp [alGet]
    · by_cases hak : a = k
      · simp [alGet, hak]
      · simp only [alGet, if_neg hak]
        exact ih h'

theorem alDel_sublist {K V : Type} [DecidableEq K] (l : List (K × V)) (k : K) :
    List.Sublist (alDel l k) l := by
  induction l with
  | nil => exact List.Sublist.refl _
  | cons q rest ih =>
    obtain ⟨a, b⟩ := q
    by_cases hak : a = k
    · simp only [alDel, if_pos hak]
      exact ih.cons _
    · simp only [alDel, if_neg hak]
      exact ih.cons₂ _

theorem resolutionIds_hostExit (st : Bridge.BState) :
    Bridge.resolutionIds (Bridge.step st .hostExit).2 = st.pending.map Prod.fst := by
  show Bridge.resolutionIds
    (st.activePtys.map (fun pr => Bridge.BOut.emitted pr.2 (.exit (-1) none)) ++
      st.pending.map (fun pr => Bridge.BOut.rejectedHostExit pr.1)) =
    st.pending.map Prod.fst
  rw [Bridge.resolutionIds, List.filterMap_append]
  have h1 : (st.activePtys.map
      (fun pr => Bridge.BOut.emitted pr.2 (.exit (-1) none))).filterMap
        Bridge.resolutionId = [] := by
    induction st.activePtys with
    | nil => rfl
    | cons x xs ih => simpa [Bridge.resolutionId] using ih
  have h2 : (st.pending.map
      (fun pr => Bridge.BOut.rejectedHostExit pr.1)).filterMap
        Bridge.resolutionId = st.pending.map Prod.fst := by
    induction st.pending with
    | nil => rfl
    | cons x xs ih => simpa [Bridge.resolutionId] using ih
  rw [h1, h2, List.nil_append]

/-- One transition preserves the pending-table/settlement invariant. -/
theorem invB_step (st : Bridge.BState) (settled : List Nat) (e : Bridge.BEv)
    (hI : Bridge.InvB st settled) :
    Bridge.InvB (Bridge.step st e).1
      (settled ++ Bridge.resolutionIds (Bridge.step st e).2) := by
  obtain ⟨hnd, hgone, hlt, hplt, hknd⟩ := hI
  cases e with
  | sendRequest m =>
    have hstep : Bridge.step st (.sendRequest m) =
        ({ st with messageId := st.messageId + 1,
                   pending := st.pending ++ [(st.messageId, m)] },
         [.stdinLine m]) := rfl
    rw [hstep]
    rw [show Bridge.resolutionIds [Bridge.BOut.stdinLine m] = [] from rfl,
      List.append_nil]
    refine ⟨hnd, ?_, ?_, ?_, ?_⟩
    · intro j hj
      rw [alGet_append_none _ _ _ _ (hgone j hj), if_neg (ne_of_gt (hlt j hj))]
    · intro j hj
      exact Nat.lt_trans (hlt j hj) (Nat.lt_succ_self _)
    · intro pr hpr
      rcases List.mem_append.mp hpr with hpr | hpr
      · exact Nat.lt_trans (hplt pr hpr) (Nat.lt_succ_self _)
      · simp only [List.mem_singleton] at hpr
        subst hpr
        exact Nat.lt_succ_self _
    · rw [List.map_append]
      refine List.Nodup.append hknd (List.nodup_singleton _) ?_
      intro a ha hb
      simp only [List.map_cons, List.map_nil, List.mem_singleton] at hb
      subst hb
      rcases List.mem_map.mp ha with ⟨pr, hpr, he⟩
      exact absurd (he ▸ hplt pr hpr) (lt_irrefl _)
  | sendWrite =>
    have hstep : Bridge.step st .sendWrite =
        ({ st with messageId := st.messageId + 1 }, [.stdinLine "write"]) := rfl
    rw [hstep]
    rw [show Bridge.resolutionIds [Bridge.BOut.stdinLine "write"] = [] from rfl,
      List.append_nil]
    exact ⟨hnd, hgone,
      fun j hj => Nat.lt_trans (hlt j hj) (Nat.lt_succ_self _),
      fun pr hpr => Nat.lt_trans (hplt pr hpr) (Nat.lt_succ_self _), hknd⟩
  | response id isErr =>
    cases hg : alGet st.pending id with
    | none =>
      have hstep : Bridge.step st (.response id isErr) = (st, []) := by
        simp [Bridge.step, hg]
      rw [hstep]
      rw [show Bridge.resolutionIds [] = [] from rfl, List.append_nil]
      exact ⟨hnd, hgone, hlt, hplt, hknd⟩
    | some m =>
      have hstep : Bridge.step st (.response id isErr) =
          ({ st with pending := alDel st.pending id },
           [if isErr then .rejectedError id else .resolved id]) := by
        simp [Bridge.step, hg]
      rw [hstep]
      have hres : Bridge.resolutionIds
          [if isErr then Bridge.BOut.rejectedError id else .resolved id] = [id] := by
        cases isErr <;> rfl
      rw [hres]
      have hid_lt : id < st.messageId := hplt (id, m) (alGet_mem _ _ _ hg)
      have hid_ns : id ∉ settled := by
        intro hin
        rw [hgone id hin] at hg
        cases hg
      refine ⟨?_, ?_, ?_, ?_, ?_⟩
      · refine List.Nodup.append hnd (List.nodup_singleton _) ?_
        intro a ha hb
        simp only [List.mem_singleton] at hb
        exact hid_ns (hb ▸ ha)
      · intro j hj
        rcases List.mem_append.mp hj with hj | hj
        · by_cases hji : j = id
          · subst hji
            exact alGet_alDel_self _ _
          · rw [alGet_alDel_ne _ _ _ hji]
            exact hgone j hj
        · simp only [List.mem_singleton] at hj
          subst hj
          exact alGet_alDel_self _ _
      · intro j hj
        rcases List.mem_append.mp hj with hj | hj
        · exact hlt j hj
        · simp only [List.mem_singleton] at hj
          subst hj
          exact hid_lt
      · intro pr hpr
        exact hplt pr (mem_alDel _ _ _ hpr)
      · exact ((alDel_sublist _ _).map _).nodup hknd
  | timeoutFire id =>
    cases hg : alGet st.pending id with
    | none =>
      have hstep : Bridge.step st (.timeoutFire id) = (st, []) := by
        simp [Bridge.step, hg]
      rw [hstep]
      rw [show Bridge.resolutionIds [] = [] from rfl, List.append_nil]
      exact ⟨hnd, hgone, hlt, hplt, hknd⟩
    | some m =>
      have hstep : Bridge.step st (.timeoutFire id) =
          ({ st with pending := alDel st.pending id },
           [.rejectedTimeout id]) := by
        simp [Bridge.step, hg]
      rw [hstep]
      rw [show Bridge.resolutionIds [Bridge.BOut.rejectedTimeout id] = [id] from rfl]
      have hid_lt : id < st.messageId := hplt (id, m) (alGet_mem _ _ _ hg)
      have hid_ns : id ∉ settled := by
        intro hin
        rw [hgone id hin] at hg
        cases hg
      refine ⟨?_, ?_, ?_, ?_, ?_⟩
      · refine List.Nodup.append hnd (List.nodup_singleton _) ?_
        intro a ha hb
        simp only [List.mem_singleton] at hb
        exact hid_ns (hb ▸ ha)
      · intro j hj
        rcases List.mem_append.mp hj with hj | hj
        · by_cases hji : j = id
          · subst hji
            exact alGet_alDel_self _ _
          · rw [alGet_alDel_ne _ _ _ hji]
            exact hgone j hj
        · simp only [List.mem_singleton] at hj
          subst hj
          exact alGet_alDel_self _ _
      · intro j hj
        rcases List.mem_append.mp hj with hj | hj
        · exact hlt j hj
        · simp only [List.mem_singleton] at hj
          subst hj
          exact hid_lt
      · intro pr hpr
        exact hplt pr (mem_alDel _ _ _ hpr)
      · exact ((alDel_sublist _ _).map _).nodup hknd
  | evData pid data =>
    cases hg : alGet st.activePtys pid with
    | none =>
      have hstep : Bridge.step st (.evData pid data) = (st, []) := by
        simp [Bridge.step, hg]
      rw [hstep]
      rw [show Bridge.resolutionIds [] = [] from rfl, List.append_nil]
      exact ⟨hnd, hgone, hlt, hplt, hknd⟩
    | some ref =>
      have hstep : Bridge.step st (.evData pid data) =
          ({ st with remotes := Bridge.alModify st.remotes ref (fun p => (p.emitData data).1) }, [.emitted ref (.data data)]) := by
        simp [Bridge.step, hg]
      rw [hstep]
      rw [show Bridge.resolutionIds [Bridge.BOut.emitted ref (.data data)] = []
        from rfl, List.append_nil]
      exact ⟨hnd, hgone, hlt, hplt, hknd⟩
  | evExit pid code sg =>
    cases hg : alGet st.activePtys pid with
    | none =>
      have hstep : Bridge.step st (.evExit pid code sg) = (st, []) := by
        simp [Bridge.step, hg]
      rw [hstep]
      rw [show Bridge.resolutionIds [] = [] from rfl, List.append_nil]
      exact ⟨hnd, hgone, hlt, hplt, hknd⟩
    | some ref =>
      have hstep : Bridge.step st (.evExit pid code sg) =
          ({ st with activePtys := alDel st.activePtys pid, remotes := Bridge.alModify st.remotes ref (fun p => (p.emitExit code sg).1) }, [.emitted ref (.exit code sg)]) := by
        simp [Bridge.step, hg]
      rw [hstep]
      rw [show Bridge.resolutionIds [Bridge.BOut.emitted ref (.exit code sg)] = []
        from rfl, List.append_nil]
      exact ⟨hnd, hgone, hlt, hplt, hknd⟩
  | evError pid =>
    cases hg : alGet st.activePtys pid with
    | none =>
      have hstep : Bridge.step st (.evError pid) = (st, []) := by
        simp [Bridge.step, hg]
      rw [hstep]
      rw [show Bridge.resolutionIds [] = [] from rfl, List.append_nil]
      exact ⟨hnd, hgone, hlt, hplt, hknd⟩
    | some ref =>
      have hstep : Bridge.step st (.evError pid) =
          (st, [.emitted ref .error]) := by
        simp [Bridge.step, hg]
      rw [hstep]
      rw [show Bridge.resolutionIds [Bridge.BOut.emitted ref .error] = []
        from rfl, List.append_nil]
      exact ⟨hnd, hgone, hlt, hplt, hknd⟩
  | hostExit =>
    rw [resolutionIds_hostExit]
    refine ⟨?_, ?_, ?_, ?_, ?_⟩
    · refine List.Nodup.append hnd hknd ?_
      intro a ha hb
      rcases List.mem_map.mp hb with ⟨pr, hpr, he⟩
      have hne : alGet st.pending a ≠ none := by
        obtain ⟨k, v⟩ := pr
        cases he
        exact alGet_ne_none_of_mem _ _ _ hpr
      exact hne (hgone a ha)
    · intro j hj
      rfl
    · intro j hj
      rcases List.mem_append.mp hj with hj | hj
      · exact hlt j hj
      · rcases List.mem_map.mp hj with ⟨pr, hpr, he⟩
        exact he ▸ hplt pr hpr
    · intro pr hpr
      simp only [Bridge.step] at hpr
      simp at hpr
    · exact List.nodup_nil

/-- Running any event sequence preserves the invariant. -/
theorem invB_run (st : Bridge.BState) (settled : List Nat)
    (evs : List Bridge.BEv) (hI : Bridge.InvB st settled) :
    Bridge.InvB (Bridge.runB st evs).1
      (settled ++ Bridge.resolutionIds (Bridge.runB st evs).2) := by
  induction evs generalizing st settled with
  | nil => simpa [Bridge.runB, Bridge.resolutionIds] using hI
  | cons e evs ih =>
    have h2 := ih (Bridge.step st e).1
      (settled ++ Bridge.resolutionIds (Bridge.step st e).2)
      (invB_step st settled e hI)
    simp only [Bridge.runB]
    simpa [Bridge.resolutionIds, List.filterMap_append, List.append_assoc] using h2

/-- C5: over any event sequence from the initial bridge state, every
correlated request id is settled at most once (the settlement log has no
duplicates), every settled id has left the pending table (and since the
sequence is arbitrary, this holds at every point of every run); a
response whose id has no pending entry is ignored entirely; and each of
the three settlement paths — matching response, RPC timeout, host exit —
removes the entry (or the whole table) in the same transition that
settles it. -/
theorem C5_pending_request_invariant (evs : List Bridge.BEv) :
    (Bridge.resolutionIds (Bridge.runB Bridge.initB evs).2).Nodup ∧
    (∀ id ∈ Bridge.resolutionIds (Bridge.runB Bridge.initB evs).2,
      alGet (Bridge.runB Bridge.initB evs).1.pending id = none) ∧
    (∀ (st : Bridge.BState) (id : Nat) (b : Bool), alGet st.pending id = none →
      Bridge.step st (.response id b) = (st, [])) ∧
    (∀ (st : Bridge.BState) (id : Nat) (m : String) (b : Bool),
      alGet st.pending id = some m →
      (Bridge.step st (.response id b)).1.pending = alDel st.pending id ∧
      Bridge.resolutionIds (Bridge.step st (.response id b)).2 = [id]) ∧
    (∀ (st : Bridge.BState) (id : Nat) (m : String),
      alGet st.pending id = some m →
      (Bridge.step st (.timeoutFire id)).1.pending = alDel st.pending id ∧
      Bridge.resolutionIds (Bridge.step st (.timeoutFire id)).2 = [id]) ∧
    (∀ st : Bridge.BState,
      (Bridge.step st .hostExit).1.pending = [] ∧
      Bridge.resolutionIds (Bridge.step st .hostExit).2 =
        st.pending.map Prod.fst) := by
  have hinit : Bridge.InvB Bridge.initB [] :=
    ⟨List.nodup_nil, by simp, by simp, by simp [Bridge.initB, alGet], List.nodup_nil⟩
  have h := invB_run Bridge.initB [] evs hinit
  rw [List.nil_append] at h
  obtain ⟨h1, h2, _, _, _⟩ := h
  refine ⟨h1, h2, ?_, ?_, ?_, ?_⟩
  · intro st id b hnone
    simp [Bridge.step, hnone]
  · intro st id m b hsome
    refine ⟨by simp [Bridge.step, hsome], ?_⟩
    cases b <;> simp [Bridge.step, hsome] <;> rfl
  · intro st id m hsome
    exact ⟨by simp [Bridge.step, hsome], by simp [Bridge.step, hsome]; rfl⟩
  · intro st
    exact ⟨rfl, resolutionIds_hostExit st⟩

/-- Witness for C5: the theorem applied to a concrete run (request sent,
response settles it, a duplicate response is ignored). -/
theorem C5_pending_request_invariant_witness :
    (Bridge.resolutionIds
      (Bridge.runB Bridge.initB
        [.sendRequest "create", .response 0 false, .response 0 false]).2).Nodup :=
  (C5_pending_request_invariant
    [.sendRequest "create", .response 0 false, .response 0 false]).1

/-! ## Helper lemmas for the shell retry loop -/

theorem countAttempts_append (x y : List Shells.TAct) (s : String) :
    Shells.countAttempts (x ++ y) s =
      Shells.countAttempts x s + Shells.countAttempts y s := by
  simp [Shells.countAttempts, List.filter_append]

theorem sleptIn_append (x y : List Shells.TAct) :
    Shells.sleptIn (x ++ y) = (Shells.sleptIn x || Shells.sleptIn y) := by
  simp [Shells.sleptIn]

theorem attemptShell_fuel1 (plat : Shells.Plat)
    (spawn : String → Nat → Except String Nat) (shell : String) (attempt : Nat) :
    (Shells.attemptShell plat spawn shell attempt 1).2.1 =
      [.attempt shell attempt] := by
  cases hsp : spawn shell attempt with
  | ok h => simp [Shells.attemptShell, hsp]
  | error e =>
    simp only [Shells.attemptShell, hsp]
    split
    · rfl
    · rfl

theorem attemptShell_head (plat : Shells.Plat)
    (spawn : String → Nat → Except String Nat) (shell : String)
    (attempt fuel : Nat) :
    ∃ tl, (Shells.attemptShell plat spawn shell attempt (fuel + 1)).2.1 =
      .attempt shell attempt :: tl := by
  cases hsp : spawn shell attempt with
  | ok h => exact ⟨[], by simp [Shells.attemptShell, hsp]⟩
  | error e =>
    simp only [Shells.attemptShell, hsp]
    split
    · split
      · exact ⟨[], rfl⟩
      · exact ⟨_, rfl⟩
    · exact ⟨[], rfl⟩

theorem attemptShell_trace_only (plat : Shells.Plat)
    (spawn : String → Nat → Except String Nat) (shell : String) :
    ∀ (fuel attempt : Nat),
      ∀ a ∈ (Shells.attemptShell plat spawn shell attempt fuel).2.1,
        a = .slept 100 ∨ ∃ n, a = .attempt shell n := by
  intro fuel
  induction fuel with
  | zero =>
    intro attempt a ha
    simp [Shells.attemptShell] at ha
  | succ fuel ih =>
    intro attempt a ha
    cases hsp : spawn shell attempt with
    | ok h =>
      simp [Shells.attemptShell, hsp] at ha
      exact Or.inr ⟨attempt, ha⟩
    | error e =>
      simp only [Shells.attemptShell, hsp] at ha
      split at ha
      · split at ha
        · simp at ha
          exact Or.inr ⟨attempt, ha⟩
        · simp only [List.mem_cons] at ha
          rcases ha with rfl | rfl | ha
          · exact Or.inr ⟨attempt, rfl⟩
          · exact Or.inl rfl
          · exact ih (attempt + 1) a ha
      · simp at ha
        exact Or.inr ⟨attempt, ha⟩

theorem countAttempts_eq_zero_of_only (tr : List Shells.TAct) (s : String)
    (h : ∀ a ∈ tr, a = .slept 100 ∨ ∃ shell n, shell ≠ s ∧ a = .attempt shell n) :
    Shells.countAttempts tr s = 0 := by
  rw [Shells.countAttempts, List.length_eq_zero]
  rw [List.filter_eq_nil_iff]
  intro a ha
  rcases h a ha with rfl | ⟨shell, n, hne, rfl⟩
  · simp
  · simp [hne]

theorem countAttempts_other (plat : Shells.Plat)
    (spawn : String → Nat → Except String Nat) (shell s : String)
    (hne : s ≠ shell) (fuel attempt : Nat) :
    Shells.countAttempts (Shells.attemptShell plat spawn shell attempt fuel).2.1 s = 0 := by
  apply countAttempts_eq_zero_of_only
  intro a ha
  rcases attemptShell_trace_only plat spawn shell fuel attempt a ha with rfl | ⟨n, rfl⟩
  · exact Or.inl rfl
  · exact Or.inr ⟨shell, n, fun e => hne e.symm, rfl⟩

theorem countAttempts_self_le (plat : Shells.Plat)
    (spawn : String → Nat → Except String Nat) (shell : String) :
    ∀ (fuel attempt : Nat),
      Shells.countAttempts (Shells.attemptShell plat spawn shell attempt fuel).2.1 shell ≤ fuel := by
  intro fuel
  induction fuel with
  | zero =>
    intro attempt
    simp [Shells.attemptShell, Shells.countAttempts]
  | succ fuel ih =>
    intro attempt
    cases hsp : spawn shell attempt with
    | ok h =>
      simp [Shells.attemptShell, hsp, Shells.countAttempts]
    | error e =>
      simp only [Shells.attemptShell, hsp]
      split
      · split
        · simp [Shells.countAttempts]
        · show Shells.countAttempts
            (.attempt shell attempt :: .slept 100 ::
              (Shells.attemptShell plat spawn shell (attempt + 1) fuel).2.1) shell ≤ fuel + 1
          have : Shells.countAttempts
              (.attempt shell attempt :: .slept 100 ::
                (Shells.attemptShell plat spawn shell (attempt + 1) fuel).2.1) shell =
              1 + Shells.countAttempts
                (Shells.attemptShell plat spawn shell (attempt + 1) fuel).2.1 shell := by
            simp [Shells.countAttempts, Nat.add_comm]
          rw [this]
          have h2 := ih (attempt + 1)
          omega
      · simp [Shells.countAttempts]

theorem tryShellList_count_zero (plat : Shells.Plat)
    (spawn : String → Nat → Except String Nat) (all : List String) (s : String) :
    ∀ (rest : List String) (le : Option String), s ∉ rest →
      Shells.countAttempts (Shells.tryShellList plat spawn all rest le).2 s = 0 := by
  intro rest
  induction rest with
  | nil =>
    intro le h
    simp [Shells.tryShellList, Shells.countAttempts]
  | cons shell rest ih =>
    intro le h
    have hne : s ≠ shell := fun e => h (e ▸ List.mem_cons_self _ _)
    have hnr : s ∉ rest := fun hr => h (List.mem_cons_of_mem _ hr)
    simp only [Shells.tryShellList]
    cases hp : (Shells.attemptShell plat spawn shell 1
        (if plat = Shells.Plat.darwin then 3 else 1)).1 with
    | some h2 =>
      simp only [hp]
      exact countAttempts_other plat spawn shell s hne _ _
    | none =>
      simp only [hp]
      rw [countAttempts_append, countAttempts_other plat spawn shell s hne _ _,
        ih _ hnr]

theorem tryShellList_ok_mem (plat : Shells.Plat)
    (spawn : String → Nat → Except String Nat) (all : List String) :
    ∀ (rest : List String) (le : Option String) (shell : String) (h : Nat),
      (Shells.tryShellList plat spawn all rest le).1 = .ok (shell, h) →
      shell ∈ rest := by
  intro rest
  induction rest with
  | nil =>
    intro le shell h hk
    simp [Shells.tryShellList] at hk
  | cons s0 rest ih =>
    intro le shell h hk
    simp only [Shells.tryShellList] at hk
    cases hp : (Shells.attemptShell plat spawn s0 1
        (if plat = Shells.Plat.darwin then 3 else 1)).1 with
    | some h2 =>
      rw [hp] at hk
      simp only [Except.ok.injEq, Prod.mk.injEq] at hk
      obtain ⟨rfl, rfl⟩ := hk
      exact List.mem_cons_self _ _
    | none =>
      rw [hp] at hk
      exact List.mem_cons_of_mem _ (ih _ _ _ hk)

theorem tryShellList_err_agg (plat : Shells.Plat)
    (spawn : String → Nat → Except String Nat) (all : List String) :
    ∀ (rest : List String) (le : Option String) (m : String),
      (Shells.tryShellList plat spawn all rest le).1 = .error m →
      ∃ le2, m = Shells.aggregateMsg all le2 := by
  intro rest
  induction rest with
  | nil =>
    intro le m hk
    simp only [Shells.tryShellList] at hk
    refine ⟨le, ?_⟩
    cases hk
    rfl
  | cons s0 rest ih =>
    intro le m hk
    simp only [Shells.tryShellList] at hk
    cases hp : (Shells.attemptShell plat spawn s0 1
        (if plat = Shells.Plat.darwin then 3 else 1)).1 with
    | some h2 =>
      rw [hp] at hk
      cases hk
    | none =>
      rw [hp] at hk
      exact ih _ _ hk

theorem tryShellList_err_allattempted (plat : Shells.Plat)
    (spawn : String → Nat → Except String Nat) (all : List String) :
    ∀ (rest : List String) (le : Option String) (m : String),
      (Shells.tryShellList plat spawn all rest le).1 = .error m →
      ∀ s ∈ rest,
        1 ≤ Shells.countAttempts (Shells.tryShellList plat spawn all rest le).2 s := by
  intro rest
  induction rest with
  | nil =>
    intro le m hk s hs
    simp at hs
  | cons s0 rest ih =>
    intro le m hk s hs
    have hF : (if plat = Shells.Plat.darwin then 3 else 1) =
        (if plat = Shells.Plat.darwin then 2 else 0) + 1 := by
      by_cases hd : plat = Shells.Plat.darwin <;> simp [hd]
    cases hp : (Shells.attemptShell plat spawn s0 1
        (if plat = Shells.Plat.darwin then 3 else 1)).1 with
    | some h2 =>
      simp only [Shells.tryShellList, hp] at hk
      cases hk
    | none =>
      simp only [Shells.tryShellList, hp] at hk ⊢
      rcases List.mem_cons.mp hs with rfl | hs'
      · rw [countAttempts_append]
        obtain ⟨tl, htl⟩ := attemptShell_head plat spawn s 1
          (if plat = Shells.Plat.darwin then 2 else 0)
        rw [← hF] at htl
        rw [htl]
        simp [Shells.countAttempts]
        omega
      · rw [countAttempts_append]
        have h2 := ih _ _ hk s hs'
        omega

theorem tryShellList_nondarwin_noslept (plat : Shells.Plat)
    (spawn : String → Nat → Except String Nat) (all : List String)
    (hnd : plat ≠ Shells.Plat.darwin) :
    ∀ (rest : List String) (le : Option String),
      Shells.sleptIn (Shells.tryShellList plat spawn all rest le).2 = false := by
  intro rest
  induction rest with
  | nil =>
    intro le
    rfl
  | cons s0 rest ih =>
    intro le
    have hF : (if plat = Shells.Plat.darwin then 3 else 1) = 1 := by simp [hnd]
    simp only [Shells.tryShellList, hF]
    cases hp : (Shells.attemptShell plat spawn s0 1 1).1 with
    | some h2 =>
      simp only [hp]
      rw [attemptShell_fuel1]
      rfl
    | none =>
      simp only [hp]
      rw [sleptIn_append, attemptShell_fuel1, ih]
      rfl

theorem tryShellList_nondarwin_once (plat : Shells.Plat)
    (spawn : String → Nat → Except String Nat) (all : List String)
    (hnd : plat ≠ Shells.Plat.darwin) :
    ∀ (rest : List String) (le : Option String), rest.Nodup →
      ∀ s, Shells.countAttempts (Shells.tryShellList plat spawn all rest le).2 s ≤ 1 := by
  intro rest
  induction rest with
  | nil =>
    intro le hnodup s
    simp [Shells.tryShellList, Shells.countAttempts]
  | cons s0 rest ih =>
    intro le hnodup s
    have hF : (if plat = Shells.Plat.darwin then 3 else 1) = 1 := by simp [hnd]
    simp only [Shells.tryShellList, hF]
    cases hp : (Shells.attemptShell plat spawn s0 1 1).1 with
    | some h2 =>
      simp only [hp]
      rw [attemptShell_fuel1]
      by_cases hse : s = s0
      · subst hse
        simp [Shells.countAttempts]
      · have hse' : ¬ s0 = s := fun e => hse e.symm
        simp [Shells.countAttempts, hse']
    | none =>
      simp only [hp]
      rw [countAttempts_append, attemptShell_fuel1]
      by_cases hse : s = s0
      · subst hse
        have hz := tryShellList_count_zero plat spawn all s rest
          ((Shells.attemptShell plat spawn s 1 1).2.2.orElse (fun _ => le))
          (List.nodup_cons.mp hnodup).1
        rw [hz]
        simp [Shells.countAttempts]
      · have hse' : ¬ s0 = s := fun e => hse e.symm
        have h1 : Shells.countAttempts [Shells.TAct.attempt s0 1] s = 0 := by
          simp [Shells.countAttempts, hse']
        rw [h1]
        have h2 := ih ((Shells.attemptShell plat spawn s0 1 1).2.2.orElse (fun _ => le))
          (List.nodup_cons.mp hnodup).2 s
        omega

theorem tryShellList_darwin_bound (spawn : String → Nat → Except String Nat)
    (all : List String) :
    ∀ (rest : List String) (le : Option String), rest.Nodup →
      ∀ s, Shells.countAttempts
        (Shells.tryShellList Shells.Plat.darwin spawn all rest le).2 s ≤ 3 := by
  intro rest
  induction rest with
  | nil =>
    intro le hnodup s
    simp [Shells.tryShellList, Shells.countAttempts]
  | cons s0 rest ih =>
    intro le hnodup s
    have hRed : Shells.tryShellList Shells.Plat.darwin spawn all (s0 :: rest) le =
        (let p := Shells.attemptShell Shells.Plat.darwin spawn s0 1 3
         match p.1 with
         | some h => (.ok (s0, h), p.2.1)
         | none =>
           let q := Shells.tryShellList Shells.Plat.darwin spawn all rest
             (p.2.2.orElse (fun _ => le))
           (q.1, p.2.1 ++ q.2)) := rfl
    rw [hRed]
    cases hp : (Shells.attemptShell Shells.Plat.darwin spawn s0 1 3).1 with
    | some h2 =>
      simp only [hp]
      by_cases hse : s = s0
      · subst hse
        exact countAttempts_self_le Shells.Plat.darwin spawn s 3 1
      · have hse' : ¬ s = s0 := hse
        rw [countAttempts_other Shells.Plat.darwin spawn s0 s hse']
        omega
    | none =>
      simp only [hp]
      rw [countAttempts_append]
      by_cases hse : s = s0
      · subst hse
        have hz := tryShellList_count_zero Shells.Plat.darwin spawn all s rest
          ((Shells.attemptShell Shells.Plat.darwin spawn s 1 3).2.2.orElse (fun _ => le))
          (List.nodup_cons.mp hnodup).1
        have hb := countAttempts_self_le Shells.Plat.darwin spawn s 3 1
        omega
      · rw [countAttempts_other Shells.Plat.darwin spawn s0 s hse]
        have h2 := ih ((Shells.attemptShell Shells.Plat.darwin spawn s0 1 3).2.2.orElse
            (fun _ => le)) (List.nodup_cons.mp hnodup).2 s
        omega

theorem dedup_foldl_nodup (alts : List String) :
    ∀ acc : List String, acc.Nodup →
      (alts.foldl (fun acc s => if s ∈ acc then acc else acc ++ [s]) acc).Nodup := by
  induction alts with
  | nil => intro acc h; exact h
  | cons x alts ih =>
    intro acc h
    simp only [List.foldl_cons]
    by_cases hx : x ∈ acc
    · rw [if_pos hx]
      exact ih acc h
    · rw [if_neg hx]
      refine ih _ (List.Nodup.append h (List.nodup_singleton _) ?_)
      intro a ha hb
      simp only [List.mem_singleton] at hb
      subst hb
      exact hx ha

theorem dedup_foldl_mem (alts : List String) :
    ∀ (acc : List String) (s : String),
      s ∈ alts.foldl (fun acc s => if s ∈ acc then acc else acc ++ [s]) acc ↔
        s ∈ acc ∨ s ∈ alts := by
  induction alts with
  | nil =>
    intro acc s
    simp
  | cons x alts ih =>
    intro acc s
    simp only [List.foldl_cons]
    by_cases hx : x ∈ acc
    · rw [if_pos hx, ih]
      constructor
      · rintro (h | h)
        · exact Or.inl h
        · exact Or.inr (List.mem_cons_of_mem _ h)
      · rintro (h | h)
        · exact Or.inl h
        · rcases List.mem_cons.mp h with rfl | h'
          · exact Or.inl hx
          · exact Or.inr h'
    · rw [if_neg hx, ih]
      simp only [List.mem_append, List.mem_singleton, List.mem_cons]
      tauto

theorem dedup_foldl_ext (alts : List String) :
    ∀ acc : List String, ∃ extra,
      alts.foldl (fun acc s => if s ∈ acc then acc else acc ++ [s]) acc =
        acc ++ extra := by
  induction alts with
  | nil =>
    intro acc
    exact ⟨[], by simp⟩
  | cons x alts ih =>
    intro acc
    simp only [List.foldl_cons]
    by_cases hx : x ∈ acc
    · rw [if_pos hx]
      exact ih acc
    · rw [if_neg hx]
      obtain ⟨e, he⟩ := ih (acc ++ [x])
      exact ⟨[x] ++ e, by rw [he, List.append_assoc]⟩

/-- C9 counterexample: the claim says a spawn failure whose message
carries the transient `posix_spawnp` signature is retried (with a delay)
before moving on.  On a non-darwin platform the code never retries:
`maxRetries` is 1, so `/bin/bash`, failing with exactly that signature,
is attempted once, with no sleep, and the loop moves straight on to
`/bin/sh`. -/
theorem C9_counterexample :
    strIncludes "spawn posix_spawnp failed" Shells.posixSpawnSig = true ∧
    Shells.createTerminalWithAvailableShell .linux [] "t1" "/bin/bash"
        (Shells.getAlternativeShells .linux) Shells.c9spawn =
      (.ok ("/bin/sh", 500), [.attempt "/bin/bash" 1, .attempt "/bin/sh" 1]) ∧
    Shells.countAttempts
      [Shells.TAct.attempt "/bin/bash" 1, .attempt "/bin/sh" 1] "/bin/bash" = 1 ∧
    Shells.sleptIn
      [Shells.TAct.attempt "/bin/bash" 1, .attempt "/bin/sh" 1] = false := by
  exact ⟨by decide, by rfl, by decide, by decide⟩

/-- C9 (amended): `createTerminalWithAvailableShell` builds an ordered,
deduplicated candidate list (truthy preferred shell first, then the
platform alternatives and nothing else); the first candidate that spawns
wins immediately; a failure without the darwin-and-`posix_spawnp`
combination moves to the next candidate at once; ONLY on darwin a
transient-signature failure is retried after a 100 ms sleep, with at most
3 attempts per candidate there and exactly at most 1 attempt (and no
sleep) on every other platform; a success always names a listed
candidate; and failure occurs only after every candidate was attempted,
with the aggregate message naming the full candidate list and the last
error. -/
theorem C9_shell_fallback :
    (∀ (preferred : String) (alts : List String),
      (Shells.getShellsToTry preferred alts).Nodup) ∧
    (∀ (preferred : String) (alts : List String), preferred ≠ "" →
      (Shells.getShellsToTry preferred alts).head? = some preferred) ∧
    (∀ (preferred : String) (alts : List String) (s : String), preferred ≠ "" →
      (s ∈ Shells.getShellsToTry preferred alts ↔ s = preferred ∨ s ∈ alts)) ∧
    (∀ (plat : Shells.Plat) (spawn : String → Nat → Except String Nat)
        (all : List String) (shell : String) (rest : List String)
        (le : Option String) (h : Nat), spawn shell 1 = .ok h →
      Shells.tryShellList plat spawn all (shell :: rest) le =
        (.ok (shell, h), [.attempt shell 1])) ∧
    (∀ (plat : Shells.Plat) (spawn : String → Nat → Except String Nat)
        (all : List String) (shell : String) (rest : List String)
        (le : Option String) (e : String), spawn shell 1 = .error e →
      ¬(plat = Shells.Plat.darwin ∧ strIncludes e Shells.posixSpawnSig = true) →
      Shells.tryShellList plat spawn all (shell :: rest) le =
        ((Shells.tryShellList plat spawn all rest (some e)).1,
         .attempt shell 1 :: (Shells.tryShellList plat spawn all rest (some e)).2)) ∧
    (∀ (spawn : String → Nat → Except String Nat) (shell : String)
        (attempt fuel : Nat) (e : String), spawn shell attempt = .error e →
      strIncludes e Shells.posixSpawnSig = true →
      Shells.attemptShell .darwin spawn shell attempt (fuel + 2) =
        ((Shells.attemptShell .darwin spawn shell (attempt + 1) (fuel + 1)).1,
         .attempt shell attempt :: .slept 100 ::
           (Shells.attemptShell .darwin spawn shell (attempt + 1) (fuel + 1)).2.1,
         some ((Shells.attemptShell .darwin spawn shell (attempt + 1)
           (fuel + 1)).2.2.getD e))) ∧
    (∀ (spawn : String → Nat → Except String Nat) (all rest : List String)
        (le : Option String), rest.Nodup → ∀ s,
      Shells.countAttempts
        (Shells.tryShellList Shells.Plat.darwin spawn all rest le).2 s ≤ 3) ∧
    (∀ (plat : Shells.Plat) (spawn : String → Nat → Except String Nat)
        (all rest : List String) (le : Option String),
      plat ≠ Shells.Plat.darwin → rest.Nodup →
      (∀ s, Shells.countAttempts
        (Shells.tryShellList plat spawn all rest le).2 s ≤ 1) ∧
      Shells.sleptIn (Shells.tryShellList plat spawn all rest le).2 = false) ∧
    (∀ (plat : Shells.Plat) (spawn : String → Nat → Except String Nat)
        (all rest : List String) (le : Option String) (shell : String) (h : Nat),
      (Shells.tryShellList plat spawn all rest le).1 = .ok (shell, h) →
      shell ∈ rest) ∧
    (∀ (plat : Shells.Plat) (spawn : String → Nat → Except String Nat)
        (all rest : List String) (le : Option String) (m : String),
      (Shells.tryShellList plat spawn all rest le).1 = .error m →
      (∃ le2, m = Shells.aggregateMsg all le2) ∧
      ∀ s ∈ rest,
        1 ≤ Shells.countAttempts
          (Shells.tryShellList plat spawn all rest le).2 s) := by
  refine ⟨?_, ?_, ?_, ?_, ?_, ?_, ?_, ?_, ?_, ?_⟩
  · intro preferred alts
    apply dedup_foldl_nodup
    by_cases hp : preferred ≠ "" <;> simp [hp]
  · intro preferred alts hp
    rw [Shells.getShellsToTry, if_pos hp]
    obtain ⟨e, he⟩ := dedup_foldl_ext alts [preferred]
    rw [he]
    rfl
  · intro preferred alts s hp
    rw [Shells.getShellsToTry, if_pos hp, dedup_foldl_mem]
    simp
  · intro plat spawn all shell rest le h hsp
    have hF : (if plat = Shells.Plat.darwin then 3 else 1) =
        (if plat = Shells.Plat.darwin then 2 else 0) + 1 := by
      by_cases hd : plat = Shells.Plat.darwin <;> simp [hd]
    have hA : Shells.attemptShell plat spawn shell 1
        ((if plat = Shells.Plat.darwin then 2 else 0) + 1) =
        (some h, [.attempt shell 1], none) := by
      simp [Shells.attemptShell, hsp]
    simp only [Shells.tryShellList, hF, hA]
  · intro plat spawn all shell rest le e hsp hcond
    have hF : (if plat = Shells.Plat.darwin then 3 else 1) =
        (if plat = Shells.Plat.darwin then 2 else 0) + 1 := by
      by_cases hd : plat = Shells.Plat.darwin <;> simp [hd]
    have hA : Shells.attemptShell plat spawn shell 1
        ((if plat = Shells.Plat.darwin then 2 else 0) + 1) =
        (none, [.attempt shell 1], some e) := by
      simp only [Shells.attemptShell, hsp]
      rw [if_neg]
      intro hc
      exact hcond ⟨hc.1, hc.2⟩
    simp only [Shells.tryShellList, hF, hA]
    simp [Option.orElse]
  · intro spawn shell attempt fuel e hsp hsig
    simp only [Shells.attemptShell, hsp]
    rw [if_pos ⟨by trivial, hsig⟩, if_neg (Nat.succ_ne_zero fuel)]
  · exact fun spawn all rest le hnodup s =>
      tryShellList_darwin_bound spawn all rest le hnodup s
  · exact fun plat spawn all rest le hnd hnodup =>
      ⟨fun s => tryShellList_nondarwin_once plat spawn all hnd rest le hnodup s,
       tryShellList_nondarwin_noslept plat spawn all hnd rest le⟩
  · exact fun plat spawn all rest le shell h hk =>
      tryShellList_ok_mem plat spawn all rest le shell h hk
  · exact fun plat spawn all rest le m hk =>
      ⟨tryShellList_err_agg plat spawn all rest le m hk,
       fun s hs => tryShellList_err_allattempted plat spawn all rest le m hk s hs⟩

/-- Witness for C9: the amended theorem applied at concrete inputs (the
darwin retry unfolding on a persistent transient failure, and the
candidate-list head). -/
theorem C9_shell_fallback_witness :
    Shells.attemptShell .darwin (fun _ _ => .error "posix_spawnp EAGAIN") "/bin/zsh" 1 3 =
      ((Shells.attemptShell .darwin (fun _ _ => .error "posix_spawnp EAGAIN") "/bin/zsh" 2 2).1,
       .attempt "/bin/zsh" 1 :: .slept 100 ::
         (Shells.attemptShell .darwin (fun _ _ => .error "posix_spawnp EAGAIN") "/bin/zsh" 2 2).2.1,
       some ((Shells.attemptShell .darwin (fun _ _ => .error "posix_spawnp EAGAIN") "/bin/zsh" 2
         2).2.2.getD "posix_spawnp EAGAIN")) ∧
    (Shells.getShellsToTry "/bin/zsh" ["/bin/bash", "/bin/zsh"]).head? = some "/bin/zsh" :=
  ⟨C9_shell_fallback.2.2.2.2.2.1 (fun _ _ => .error "posix_spawnp EAGAIN") "/bin/zsh" 1 1
      "posix_spawnp EAGAIN" rfl (by decide),
   C9_shell_fallback.2.1 "/bin/zsh" ["/bin/bash", "/bin/zsh"] (by decide)⟩
